import Mathlib

/-!
# Roster reconciliation engine of `apps/auth-bot/index.js`

A shallow embedding of the reconciliation cycle `syncGuildFromSheet` and of the
helpers it calls (`parseCSVToArrays`, `getCell`, `parseBool`, `isExplicitNo`, the
pool `runPool`), followed by theorems about the parser, the classification pass, the
diff, the change-detection memo and the executor.

Modelling conventions.

* A JavaScript string is a `List Char`.  The values compared by the code are
  ASCII tokens and digit strings, for which code points and UTF-16 code units
  coincide.
* A JavaScript `Set` is a duplicate-free list in insertion order (`setAdd`), which
  is also the order of `for ... of` and of `Array.from`.
* Every call to the platform (`guild.members.fetch`, `roles.add`, ...) is answered
  by an oracle field of `Guild`; `none` stands for a rejected promise.
-/

namespace AuthBot

/-! ## Strings -/

/-- A JavaScript string. -/
abbrev Str := List Char

/-- White space and line terminators removed by `String.prototype.trim`. -/
def isJsSpace (c : Char) : Bool :=
  decide (c.toNat ∈ [0x09, 0x0A, 0x0B, 0x0C, 0x0D, 0x20, 0xA0, 0x1680,
    0x2000, 0x2001, 0x2002, 0x2003, 0x2004, 0x2005, 0x2006, 0x2007, 0x2008, 0x2009, 0x200A,
    0x2028, 0x2029, 0x202F, 0x205F, 0x3000, 0xFEFF])

/-- The method `s.trim()`. -/
def trim (s : Str) : Str :=
  ((s.dropWhile isJsSpace).reverse.dropWhile isJsSpace).reverse

/-- The class `\d` of a regular expression without the unicode flag: `0` to `9`. -/
def isDigitChar (c : Char) : Bool :=
  decide (48 ≤ c.toNat) && decide (c.toNat ≤ 57)

/-- The test `/^\d+$/.test(s)`: a non-empty string of decimal digits. -/
def testDigits (s : Str) : Bool :=
  !s.isEmpty && s.all isDigitChar

/-- Lower-casing of one character.  Only `A` to `Z` are mapped: no other character
lower-cases to a letter of the tokens `parseBool` and `isExplicitNo` compare with. -/
def lowerChar (c : Char) : Char :=
  if 65 ≤ c.toNat ∧ c.toNat ≤ 90 then Char.ofNat (c.toNat + 32) else c

/-- The method `s.toLowerCase()`. -/
def toLowerCase (s : Str) : Str :=
  s.map lowerChar

/-- The expression `s || dflt` on strings: the empty string is falsy. -/
def orDefault (s dflt : Str) : Str :=
  if s.isEmpty then dflt else s

/-! ## Column resolution -/

/-- A JavaScript number as produced by `Number(process.env.X || k)`: `NaN`, an
integer, or any other value (a non-integer or an infinity) of the given sign. -/
inductive JsNum where
  | nan : JsNum
  | int (z : Int) : JsNum
  | nonInt (positive : Bool) : JsNum
  deriving DecidableEq, Repr

/-- Truthiness of a number: `NaN` and `0` are falsy. -/
def JsNum.truthy : JsNum → Bool
  | .nan => false
  | .int z => decide (z ≠ 0)
  | .nonInt _ => true

/-- The guard `index1Based && !isNaN(index1Based) && index1Based > 0`. -/
def JsNum.isPositive : JsNum → Bool
  | .nan => false
  | .int z => decide (0 < z)
  | .nonInt p => p

/-- The read `row[index1Based - 1] ?? ''` under the guard of `getCell`: a position
that is not an integer names no element of the array. -/
def rowAt (row : List Str) : JsNum → Str
  | .int z => row.getD (z - 1).toNat []
  | _ => []

/-- The method `headers.findIndex((h) => h === fieldName)`; `none` stands for `-1`. -/
def findIndex (headers : List Str) (fieldName : Str) : Option Nat :=
  match headers with
  | [] => none
  | h :: t => if h = fieldName then some 0 else (findIndex t fieldName).map Nat.succ

/-- The function `getCell(row, headers, fieldName, index1Based)`. -/
def getCell (row headers : List Str) (fieldName : Str) (index1Based : JsNum) : Str :=
  if index1Based.isPositive then rowAt row index1Based
  else if !fieldName.isEmpty then
    match findIndex headers fieldName with
    | some i => row.getD i []
    | none => []
  else []

/-- The function `parseBool(v)`. -/
def parseBool (v : Str) : Bool :=
  let s := toLowerCase (trim v)
  decide (s = ['t', 'r', 'u', 'e']) || decide (s = ['1']) ||
    decide (s = ['y', 'e', 's']) || decide (s = ['y'])

/-- The function `isExplicitNo(v)`. -/
def isExplicitNo (v : Str) : Bool :=
  let s := toLowerCase (trim v)
  decide (s = ['f', 'a', 'l', 's', 'e']) || decide (s = ['0']) ||
    decide (s = ['n', 'o']) || decide (s = ['n'])

/-! ## Tabular parser -/

/-- The double quote character. -/
def dquote : Char := Char.ofNat 34

/-- The comma character. -/
def comma : Char := Char.ofNat 44

/-- The line feed character. -/
def lineFeed : Char := Char.ofNat 10

/-- The carriage return character. -/
def carriageReturn : Char := Char.ofNat 13

/-- The split `text.split(/\r?\n/)`, with the line read so far in `cur`.  A line feed
ends the line; a carriage return right before a line feed belongs to the separator. -/
def splitLinesFrom (cur : Str) : Str → List Str
  | [] => [cur]
  | c :: rest =>
    if c = lineFeed then cur :: splitLinesFrom [] rest
    else if c = carriageReturn ∧ rest.head? = some lineFeed then splitLinesFrom cur rest
    else splitLinesFrom (cur ++ [c]) rest

/-- The loop of the closure `parseLine` from position `i` on, with the variables `out`,
`cur` and `inQuotes`; the list is the rest of the line from `line[i]`.  The flag `skip`
is the extra `i++` of an escaped quote: the character it stands before is passed over. -/
def parseLineFrom (out : List Str) (cur : Str) (inQuotes skip : Bool) : Str → List Str
  | [] => out ++ [trim cur]
  | ch :: rest =>
    if skip then parseLineFrom out cur inQuotes false rest
    else if ch = dquote then
      if inQuotes = true ∧ rest.head? = some dquote then
        parseLineFrom out (cur ++ [dquote]) inQuotes true rest
      else parseLineFrom out cur (!inQuotes) false rest
    else if ch = comma ∧ inQuotes = false then
      parseLineFrom (out ++ [trim cur]) [] inQuotes false rest
    else parseLineFrom out (cur ++ [ch]) inQuotes false rest

/-- The closure `parseLine(line)`. -/
def parseLine (line : Str) : List Str :=
  parseLineFrom [] [] false false line

/-- The function `parseCSVToArrays(text)`; the result has the fields `headers` and
`rows`. -/
def parseCSVToArrays (text : Str) : List Str × List (List Str) :=
  match (splitLinesFrom [] text).filter (fun l => decide (l.length > 0)) with
  | [] => ([], [])
  | first :: others =>
    ((parseLine first).map trim, others.map (fun l => (parseLine l).map trim))

/-! ## Configuration -/

/-- The module-level constants read from the environment. -/
structure Config where
  COL_ID_FIELD : Str
  COL_SIGNED_FIELD : Str
  COL_GUILDID_FIELD : Str
  COL_ID_INDEX : JsNum
  COL_SIGNED_INDEX : JsNum
  COL_GUILDID_INDEX : JsNum
  REMOVE_MISSING : Bool
  REMOVE_DENIED : Bool
  BAN_NON_SIGNED : Bool
  USE_GUILD_MEMBERS_INTENT : Bool

/-- The default header name `'discordId'`. -/
def discordIdName : Str := ['d', 'i', 's', 'c', 'o', 'r', 'd', 'I', 'd']

/-- The default header name `'guildId'`. -/
def guildIdName : Str := ['g', 'u', 'i', 'l', 'd', 'I', 'd']

/-- The default header name `'ndaSigned'`. -/
def ndaSignedName : Str := ['n', 'd', 'a', 'S', 'i', 'g', 'n', 'e', 'd']

/-- The flag `limitToGuild = !!(COL_GUILDID_FIELD || COL_GUILDID_INDEX)`. -/
def limitToGuild (cfg : Config) : Bool :=
  !cfg.COL_GUILDID_FIELD.isEmpty || cfg.COL_GUILDID_INDEX.truthy

/-! ## Classification pass -/

/-- The method `set.add(x)` on a set kept in insertion order. -/
def setAdd (s : List Str) (x : Str) : List Str :=
  if x ∈ s then s else s ++ [x]

/-- The two sets built by the classification loop. -/
structure Sets where
  allowed : List Str
  denied : List Str
  deriving DecidableEq, Repr

/-- The trimmed identity cell `idRaw` of a row. -/
def idRawOf (cfg : Config) (headers r : List Str) : Str :=
  trim (getCell r headers (orDefault cfg.COL_ID_FIELD discordIdName) cfg.COL_ID_INDEX)

/-- The trimmed scope cell `gid` of a row. -/
def gidOf (cfg : Config) (headers r : List Str) : Str :=
  trim (getCell r headers (orDefault cfg.COL_GUILDID_FIELD guildIdName) cfg.COL_GUILDID_INDEX)

/-- The signed cell `signedVal` of a row. -/
def signedValOf (cfg : Config) (headers r : List Str) : Str :=
  getCell r headers (orDefault cfg.COL_SIGNED_FIELD ndaSignedName) cfg.COL_SIGNED_INDEX

/-- One iteration of the loop `for (const r of rows)`, on the sets built so far. -/
def classifyRow (cfg : Config) (headers : List Str) (guildId : Str) (acc : Sets)
    (r : List Str) : Sets :=
  let idRaw := idRawOf cfg headers r
  if idRaw.isEmpty then acc
  else
    let id : Str := if testDigits idRaw then idRaw else []
    if id.isEmpty then acc
    else if limitToGuild cfg &&
        (!(gidOf cfg headers r).isEmpty && decide (gidOf cfg headers r ≠ guildId)) then acc
    else
      let signedVal := signedValOf cfg headers r
      if parseBool signedVal then { acc with allowed := setAdd acc.allowed id }
      else if isExplicitNo signedVal then { acc with denied := setAdd acc.denied id }
      else acc

/-- The classification loop of `syncGuildFromSheet`, from two empty sets. -/
def classify (cfg : Config) (headers : List Str) (rows : List (List Str)) (guildId : Str) :
    Sets :=
  rows.foldl (classifyRow cfg headers guildId) ⟨[], []⟩

/-! ## Observation of the guild -/

/-- A guild member as the code reads it: its id and `m.roles.cache.has(role.id)`. -/
structure Member where
  id : Str
  hasRole : Bool
  deriving DecidableEq, Repr

/-- The five places of a cycle that call `guild.members.fetch(id)`: the three
candidate loops (add, denied removal, ban) and the two executor operations. -/
inductive Phase where
  | candAdd | candRemove | candBan | execAdd | execRemove
  deriving DecidableEq, Repr

/-- A parsed roster, as returned by `readSheetArrays`. -/
structure Sheet where
  headers : List Str
  rows : List (List Str)
  deriving DecidableEq, Repr

/-- The guild and the outside world during one cycle.  Every asynchronous call is
answered by a field; `none` (or `false` for `ban`) stands for a rejected promise.
Within a cycle each call is made at most once per phase and identity. -/
structure Guild where
  /-- The field `guild.id`. -/
  id : Str
  /-- Whether `resolveMemberRole(guild)` finds the member role. -/
  roleFound : Bool
  /-- The bulk call `guild.members.fetch()`. -/
  membersFetch : Option (List Member)
  /-- The call `readSheetArrays()`. -/
  sheet : Option Sheet
  /-- The call `guild.members.fetch(id)`; `some b` is a member with `hasRole = b`. -/
  fetchMember : Phase → Str → Option Bool
  /-- The call `m.roles.add(role, ...)`; `some b` is a response showing `hasRole = b`. -/
  rolesAdd : Str → Option Bool
  /-- The call `m2.fetch()` after an add. -/
  refetchAdd : Str → Option Bool
  /-- The call `m.roles.remove(role, ...)`; `some b` is a response showing `hasRole = b`. -/
  rolesRemove : Str → Option Bool
  /-- The call `m3.fetch()` after a remove. -/
  refetchRemove : Str → Option Bool
  /-- The call `guild.members.ban(id, ...)`; `false` when it rejects. -/
  ban : Str → Bool

/-- The variable `members` after the bulk fetch: `null` when the intent is off or
the fetch failed.  The final `haveMembersIntent` is true exactly when it is not `null`. -/
def observeMembers (cfg : Config) (g : Guild) : Option (List Member) :=
  if cfg.USE_GUILD_MEMBERS_INTENT then g.membersFetch else none

/-- The lookup `members.get(id)` in the fetched collection. -/
def membersGet (ms : List Member) (id : Str) : Option Member :=
  ms.find? (fun m => decide (m.id = id))

/-- The set `holders`: the ids of the fetched members that have the role. -/
def holdersOf (members : Option (List Member)) : List Str :=
  match members with
  | some ms => (ms.filter (fun m => m.hasRole)).foldl (fun s m => setAdd s m.id) []
  | none => []

/-! ## Diff -/

/-- The member read in the `toAdd` loops, reduced to its `hasRole`:
`members.get(id) || await guild.members.fetch(id)` with the member list, the
single fetch without it; `none` when the fetch rejects. -/
def lookupForAdd (g : Guild) (members : Option (List Member)) (id : Str) : Option Bool :=
  match members with
  | some ms =>
    match membersGet ms id with
    | some m => some m.hasRole
    | none => g.fetchMember .candAdd id
  | none => g.fetchMember .candAdd id

/-- The list `toAdd`. -/
def toAdd (g : Guild) (members : Option (List Member)) (allowed : List Str) : List Str :=
  allowed.foldl (fun acc id =>
    match lookupForAdd g members id with
    | some hasRole => if !hasRole then acc ++ [id] else acc
    | none => acc) []

/-- The list `toRemove` after the `REMOVE_MISSING` block. -/
def toRemoveMissing (cfg : Config) (members : Option (List Member)) (allowed : List Str) :
    List Str :=
  if cfg.REMOVE_MISSING then
    if members.isSome && decide ((holdersOf members).length ≠ 0) then
      (holdersOf members).foldl (fun acc id => if !decide (id ∈ allowed) then acc ++ [id] else acc) []
    else []
  else []

/-- The list `toRemove` after the `REMOVE_DENIED` block; `setAdd` is the guarded
push `if (!toRemove.includes(id)) toRemove.push(id)`. -/
def toRemove (cfg : Config) (g : Guild) (members : Option (List Member))
    (allowed denied : List Str) : List Str :=
  let acc0 := toRemoveMissing cfg members allowed
  if cfg.REMOVE_DENIED then
    if members.isSome then denied.foldl setAdd acc0
    else
      denied.foldl (fun acc id =>
        match g.fetchMember .candRemove id with
        | some hasRole => if hasRole && !decide (id ∈ acc) then acc ++ [id] else acc
        | none => acc) acc0
  else acc0

/-- The list `toBan`. -/
def toBan (cfg : Config) (g : Guild) (members : Option (List Member)) (denied : List Str) :
    List Str :=
  if cfg.BAN_NON_SIGNED then
    match members with
    | some ms => denied.filter (fun id => (membersGet ms id).isSome)
    | none =>
      denied.foldl (fun acc id =>
        match g.fetchMember .candBan id with
        | some _ => acc ++ [id]
        | none => acc) []
  else []

/-! ## Fingerprints and the memo -/

/-- Comparison of two strings by code, the order of the default `sort()`. -/
def strLe : Str → Str → Bool
  | [], _ => true
  | _ :: _, [] => false
  | a :: s, b :: t => if a.toNat < b.toNat then true else if b.toNat < a.toNat then false else strLe s t

/-- Insertion of a string into a sorted list. -/
def insertSorted (x : Str) : List Str → List Str
  | [] => [x]
  | y :: ys => if strLe x y then x :: y :: ys else y :: insertSorted x ys

/-- The method `arr.sort()` on an array of strings. -/
def sortStrs : List Str → List Str
  | [] => []
  | x :: xs => insertSorted x (sortStrs xs)

/-- The method `arr.join(',')`. -/
def joinComma : List Str → Str
  | [] => []
  | [x] => x
  | x :: y :: rest => x ++ ',' :: joinComma (y :: rest)

/-- The key `Array.from(set).sort().join(',')`. -/
def fingerprint (s : List Str) : Str :=
  joinComma (sortStrs s)

/-- A value of the map `lastSyncState`. -/
structure Keys where
  allowedKey : Str
  holdersKey : Str
  deniedKey : Str
  deriving DecidableEq, Repr

/-- The map `lastSyncState`, from guild id to keys, in insertion order. -/
structure SyncState where
  entries : List (Str × Keys)
  deriving DecidableEq, Repr

/-- The method `lastSyncState.get(guildId)`. -/
def SyncState.get (m : SyncState) (guildId : Str) : Option Keys :=
  (m.entries.find? (fun e => decide (e.1 = guildId))).map Prod.snd

/-- Replacement or insertion of an entry in a list of entries. -/
def setEntry (guildId : Str) (k : Keys) : List (Str × Keys) → List (Str × Keys)
  | [] => [(guildId, k)]
  | e :: es => if e.1 = guildId then (guildId, k) :: es else e :: setEntry guildId k es

/-- The method `lastSyncState.set(guildId, keys)`. -/
def SyncState.set (m : SyncState) (guildId : Str) (k : Keys) : SyncState :=
  ⟨setEntry guildId k m.entries⟩

/-- The three keys computed by a cycle. -/
def keysOf (members : Option (List Member)) (s : Sets) : Keys :=
  { allowedKey := fingerprint s.allowed
    holdersKey := if members.isSome then fingerprint (holdersOf members) else []
    deniedKey := fingerprint s.denied }

/-- The condition `sameAllowed && sameDenied && sameHolders` against a stored entry. -/
def sameAsPrev (cfg : Config) (haveMembersIntent : Bool) (prev cur : Keys) : Bool :=
  let sameAllowed := decide (prev.allowedKey = cur.allowedKey)
  let denyMatters := cfg.BAN_NON_SIGNED || cfg.REMOVE_DENIED
  let sameDenied := if denyMatters then decide (prev.deniedKey = cur.deniedKey) else true
  let sameHolders := if haveMembersIntent then decide (prev.holdersKey = cur.holdersKey) else true
  sameAllowed && sameDenied && sameHolders

/-! ## Executor and cycle -/

/-- A mutation call issued against the platform. -/
inductive Op where
  | grant (id : Str) : Op
  | revoke (id : Str) : Op
  | ban (id : Str) : Op
  deriving DecidableEq, Repr

/-- The mutable variables of the executor part of a cycle, with the log of the
mutation calls issued so far. -/
structure Exec where
  added : Nat
  removed : Nat
  banned : Nat
  hadErrors : Bool
  ops : List Op
  deriving DecidableEq, Repr

/-- The closure `runPool(ids, fn)`.  The workers claim the ids in order through the
shared cursor `idx`; `fn` returns the variables after its run and whether its
promise rejected, in which case the `catch` of `next` sets `hadErrors`.  The
outcome of each call is fixed by the identity, so the variables after the pool do
not depend on how the three workers interleave. -/
def runPool (ids : List Str) (fn : Exec → Str → Exec × Bool) (st : Exec) : Exec :=
  ids.foldl (fun st id =>
    match fn st id with
    | (st1, false) => st1
    | (st1, true) => { st1 with hadErrors := true }) st

/-- The member resolution at the head of the add and remove operations:
`m = members ? members.get(id) : null; if (!m) m = await guild.members.fetch(id)`,
with `m = null` when the fetch rejects.  Returns whether `m` is set. -/
def resolveMember (g : Guild) (members : Option (List Member)) (ph : Phase) (id : Str) :
    Bool :=
  match members with
  | some ms => (membersGet ms id).isSome || (g.fetchMember ph id).isSome
  | none => (g.fetchMember ph id).isSome

/-- The operation passed to `runPool(toAdd, ...)`. -/
def addOp (g : Guild) (members : Option (List Member)) (st : Exec) (id : Str) : Exec × Bool :=
  if !resolveMember g members .execAdd id then (st, false)
  else
    let st1 := { st with ops := st.ops ++ [Op.grant id] }
    let st2 :=
      match g.rolesAdd id with
      | some has =>
        let ok := if has then true else
          match g.refetchAdd id with
          | some has2 => has2
          | none => false
        if !ok then { st1 with hadErrors := true } else st1
      | none => { st1 with hadErrors := true }
    ({ st2 with added := st2.added + 1 }, false)

/-- The operation passed to `runPool(toRemove, ...)`. -/
def removeOp (g : Guild) (members : Option (List Member)) (st : Exec) (id : Str) :
    Exec × Bool :=
  if !resolveMember g members .execRemove id then (st, false)
  else
    let st1 := { st with ops := st.ops ++ [Op.revoke id] }
    let st2 :=
      match g.rolesRemove id with
      | some has =>
        let ok := if !has then true else
          match g.refetchRemove id with
          | some has2 => !has2
          | none => false
        if !ok then { st1 with hadErrors := true } else st1
      | none => { st1 with hadErrors := true }
    ({ st2 with removed := st2.removed + 1 }, false)

/-- The operation passed to `runPool(toBan, ...)`. -/
def banOp (g : Guild) (st : Exec) (id : Str) : Exec × Bool :=
  let st1 := { st with ops := st.ops ++ [Op.ban id] }
  if g.ban id then ({ st1 with banned := st1.banned + 1 }, false)
  else ({ st1 with hadErrors := true }, false)

/-- The object returned by `syncGuildFromSheet`.  `skipped` is `false` where the
field is absent; `hadErrors` is `none` where the field is absent. -/
structure SyncResult where
  added : Nat
  removed : Nat
  banned : Nat
  toAdd : List Str
  toRemove : List Str
  toBan : List Str
  dryRun : Bool
  skipped : Bool
  hadErrors : Option Bool
  deriving DecidableEq, Repr

/-- The two exceptions `syncGuildFromSheet` lets escape. -/
inductive SyncError where
  | roleNotFound
  | sheetUnavailable
  deriving DecidableEq, Repr

/-- What a cycle that returns leaves behind: its result, the map `lastSyncState`
after it, and the mutation calls it issued. -/
structure Outcome where
  result : SyncResult
  state : SyncState
  ops : List Op
  deriving DecidableEq, Repr

/-- The function `syncGuildFromSheet(guild, { dryRun })`, with the constants of the
module in `cfg` and the map `lastSyncState` passed explicitly.  A cycle that throws
has written nothing to the map. -/
def syncGuildFromSheet (cfg : Config) (lastSyncState : SyncState) (g : Guild) (dryRun : Bool) :
    Except SyncError Outcome :=
  if !g.roleFound then .error .roleNotFound
  else
    let members := observeMembers cfg g
    let haveMembersIntent := members.isSome
    match g.sheet with
    | none => .error .sheetUnavailable
    | some sheet =>
      let sets := classify cfg sheet.headers sheet.rows g.id
      let keys := keysOf members sets
      let skip :=
        match lastSyncState.get g.id with
        | some prev => !dryRun && sameAsPrev cfg haveMembersIntent prev keys
        | none => false
      if skip then
        .ok { result := { added := 0, removed := 0, banned := 0, toAdd := [], toRemove := [],
                          toBan := [], dryRun := false, skipped := true, hadErrors := none }
              state := lastSyncState
              ops := [] }
      else
        let toAdd := toAdd g members sets.allowed
        let toRemove := toRemove cfg g members sets.allowed sets.denied
        let toBan := toBan cfg g members sets.denied
        if dryRun then
          .ok { result := { added := 0, removed := 0, banned := 0, toAdd := toAdd,
                            toRemove := toRemove, toBan := toBan, dryRun := true,
                            skipped := false, hadErrors := none }
                state := lastSyncState
                ops := [] }
        else
          let st0 : Exec := { added := 0, removed := 0, banned := 0, hadErrors := false, ops := [] }
          let st1 := runPool toAdd (addOp g members) st0
          let st2 := runPool toRemove (removeOp g members) st1
          let st3 := if toBan.length ≠ 0 then runPool toBan (banOp g) st2 else st2
          let state := if !st3.hadErrors then lastSyncState.set g.id keys else lastSyncState
          .ok { result := { added := st3.added, removed := st3.removed, banned := st3.banned,
                            toAdd := toAdd, toRemove := toRemove, toBan := toBan,
                            dryRun := false, skipped := false, hadErrors := some st3.hadErrors }
                state := state
                ops := st3.ops }

/-! ## The pool of `runPool`, worker by worker

The fold `runPool` above fixes one order.  The definitions below follow the closure
`next` of every worker separately, so that any interleaving of the workers at their
`await` can be played: a schedule names, step after step, the worker that runs. -/

/-- Where a worker of the pool stands: at the head of `next`, suspended in
`await fn(id)`, or returned from `next` because the cursor is exhausted. -/
inductive Worker where
  | ready : Worker
  | awaiting (id : Str) : Worker
  | finished : Worker
  deriving DecidableEq, Repr

/-- The shared variables of a running pool: the cursor `idx`, the workers (the array
`tasks`), the flag `hadErrors`, and the identities `fn` was called on, in call order. -/
structure Pool where
  idx : Nat
  workers : List Worker
  hadErrors : Bool
  invoked : List Str
  deriving DecidableEq, Repr

/-- The pool when `runPool` has created its `Math.min(max, ids.length)` workers, with
`max = 3`. -/
def poolInit (ids : List Str) (hadErrors : Bool) : Pool :=
  { idx := 0, workers := List.replicate (min 3 ids.length) Worker.ready,
    hadErrors := hadErrors, invoked := [] }

/-- One step of worker `w`.  At the head of `next` it returns when `idx >= ids.length`,
else claims `ids[idx++]` and calls `fn`; when the awaited call settles, the `catch` sets
`hadErrors` if it rejected, and the worker is back at the head of `next`.  A finished
worker, or a number that names no worker, changes nothing. -/
def poolStep (ids : List Str) (rejects : Str → Bool) (p : Pool) (w : Nat) : Pool :=
  match p.workers.get? w with
  | some Worker.ready =>
    match ids.get? p.idx with
    | none => { p with workers := p.workers.set w Worker.finished }
    | some id =>
      { p with idx := p.idx + 1, workers := p.workers.set w (Worker.awaiting id),
               invoked := p.invoked ++ [id] }
  | some (Worker.awaiting id) =>
    { p with hadErrors := p.hadErrors || rejects id, workers := p.workers.set w Worker.ready }
  | _ => p

/-- The pool after the steps of a schedule. -/
def poolRun (ids : List Str) (rejects : Str → Bool) (sched : List Nat) (p : Pool) : Pool :=
  sched.foldl (poolStep ids rejects) p

/-- The condition under which `await Promise.all(tasks)` resumes: every worker has
returned. -/
def allFinished (p : Pool) : Bool :=
  p.workers.all (fun w => decide (w = Worker.finished))

/-! ## Predicates used to state the properties -/

/-- A row reaches the signed test of the loop: its trimmed identity cell passes
`/^\d+$/` and the scope filter does not skip it. -/
def rowApplicable (cfg : Config) (headers : List Str) (guildId : Str) (r : List Str) : Bool :=
  testDigits (idRawOf cfg headers r) &&
    !(limitToGuild cfg &&
      (!(gidOf cfg headers r).isEmpty && decide (gidOf cfg headers r ≠ guildId)))

/-- The row is applicable and its signed cell is truthy. -/
def rowSigned (cfg : Config) (headers : List Str) (guildId : Str) (r : List Str) : Bool :=
  rowApplicable cfg headers guildId r && parseBool (signedValOf cfg headers r)

/-- The row is applicable and its signed cell is an explicit no. -/
def rowRefused (cfg : Config) (headers : List Str) (guildId : Str) (r : List Str) : Bool :=
  rowApplicable cfg headers guildId r && isExplicitNo (signedValOf cfg headers r)

/-- The rows a scope keeps: the trimmed scope cell is empty or equal to the scope. -/
def scopeKeeps (cfg : Config) (headers : List Str) (guildId : Str) (r : List Str) : Bool :=
  !(!(gidOf cfg headers r).isEmpty && decide (gidOf cfg headers r ≠ guildId))

/-- The existence test of the `toBan` block: `members.has(id)` with the member list,
a fetch that does not reject without it. -/
def confirmedPresent (g : Guild) (members : Option (List Member)) (id : Str) : Bool :=
  match members with
  | some ms => (membersGet ms id).isSome
  | none => (g.fetchMember .candBan id).isSome

/-- The executor part of a real cycle: the three pools run one after the other on
the variables `added = 0, removed = 0, banned = 0, hadErrors = false`. -/
def execPhase (g : Guild) (members : Option (List Member)) (toAdd toRemove toBan : List Str) :
    Exec :=
  let st0 : Exec := { added := 0, removed := 0, banned := 0, hadErrors := false, ops := [] }
  let st1 := runPool toAdd (addOp g members) st0
  let st2 := runPool toRemove (removeOp g members) st1
  if toBan.length ≠ 0 then runPool toBan (banOp g) st2 else st2

/-- The grant of the role to `id` succeeded and was verified: the call `roles.add`
resolved, and its response or else the re-read `m2.fetch()` shows the role. -/
def grantVerified (g : Guild) (id : Str) : Bool :=
  match g.rolesAdd id with
  | some has => has || decide (g.refetchAdd id = some true)
  | none => false

/-- The removal of the role from `id` succeeded and was verified: the call
`roles.remove` resolved, and its response or else the re-read `m3.fetch()` shows the
member without the role. -/
def revokeVerified (g : Guild) (id : Str) : Bool :=
  match g.rolesRemove id with
  | some has => !has || decide (g.refetchRemove id = some false)
  | none => false

/-- The outcome of a real cycle that takes the early `return` of the skip check. -/
def skippedOutcome (m : SyncState) : Outcome :=
  { result := { added := 0, removed := 0, banned := 0, toAdd := [], toRemove := [],
                toBan := [], dryRun := false, skipped := true, hadErrors := none }
    state := m
    ops := [] }

/-- The outcome of a dry run on the roster `s`: the candidate lists, nothing else. -/
def dryOutcome (cfg : Config) (m : SyncState) (g : Guild) (s : Sheet) : Outcome :=
  { result :=
      { added := 0, removed := 0, banned := 0
        toAdd := toAdd g (observeMembers cfg g) (classify cfg s.headers s.rows g.id).allowed
        toRemove := toRemove cfg g (observeMembers cfg g)
          (classify cfg s.headers s.rows g.id).allowed (classify cfg s.headers s.rows g.id).denied
        toBan := toBan cfg g (observeMembers cfg g) (classify cfg s.headers s.rows g.id).denied
        dryRun := true
        skipped := false
        hadErrors := none }
    state := m
    ops := [] }

/-- The variables of the executor at the end of a real cycle on the roster `s` that
is not skipped. -/
def finalExec (cfg : Config) (g : Guild) (s : Sheet) : Exec :=
  execPhase g (observeMembers cfg g)
    (toAdd g (observeMembers cfg g) (classify cfg s.headers s.rows g.id).allowed)
    (toRemove cfg g (observeMembers cfg g)
      (classify cfg s.headers s.rows g.id).allowed (classify cfg s.headers s.rows g.id).denied)
    (toBan cfg g (observeMembers cfg g) (classify cfg s.headers s.rows g.id).denied)

/-- The outcome of a real cycle on the roster `s` that is not skipped. -/
def executedOutcome (cfg : Config) (m : SyncState) (g : Guild) (s : Sheet) : Outcome :=
  { result :=
      { added := (finalExec cfg g s).added
        removed := (finalExec cfg g s).removed
        banned := (finalExec cfg g s).banned
        toAdd := toAdd g (observeMembers cfg g) (classify cfg s.headers s.rows g.id).allowed
        toRemove := toRemove cfg g (observeMembers cfg g)
          (classify cfg s.headers s.rows g.id).allowed (classify cfg s.headers s.rows g.id).denied
        toBan := toBan cfg g (observeMembers cfg g) (classify cfg s.headers s.rows g.id).denied
        dryRun := false
        skipped := false
        hadErrors := some (finalExec cfg g s).hadErrors }
    state :=
      if (finalExec cfg g s).hadErrors = false then
        m.set g.id (keysOf (observeMembers cfg g) (classify cfg s.headers s.rows g.id))
      else m
    ops := (finalExec cfg g s).ops }

/-- Whether the call a worker is suspended on will reject. -/
def workerPending (rejects : Str → Bool) : Worker → Bool
  | Worker.awaiting id => rejects id
  | _ => false

/-- The number of steps a worker can still take without claiming an identity. -/
def workerWeight : Worker → Nat
  | Worker.ready => 1
  | Worker.awaiting _ => 2
  | Worker.finished => 0

/-- A bound on the number of effective steps left to a pool. -/
def poolMeasure (ids : List Str) (p : Pool) : Nat :=
  2 * (ids.length - p.idx) + (p.workers.map workerWeight).sum

/-- What holds of every pool reached from `poolInit ids h0`: the calls made are the
first `idx` identities in order; the flag is `h0` or a rejection among the calls that
have settled; a worker has only returned once the cursor was exhausted; and the number
of workers is `min 3 ids.length`. -/
def PoolInv (ids : List Str) (rejects : Str → Bool) (h0 : Bool) (p : Pool) : Prop :=
  p.invoked = ids.take p.idx ∧
    (h0 || p.invoked.any rejects) = (p.hadErrors || p.workers.any (workerPending rejects)) ∧
    (∀ w ∈ p.workers, w = Worker.finished → ids.length ≤ p.idx) ∧
    p.workers.length = min 3 ids.length

/-- The name lookup of the specification: the row's cell at the position of the first
header equal to the name, or the empty string when the name is empty, no header
matches, or the row has no cell there. -/
def nameCellSpec (row headers : List Str) (name : Str) : Str :=
  if name = [] then []
  else if headers.findIdx (fun h => decide (h = name)) < headers.length then
    row.getD (headers.findIdx (fun h => decide (h = name))) []
  else []

/-- The resolver as the specification words it: a positive integer index selects the
cell at position `index - 1` (empty when the row is shorter), whatever the name is;
any other index falls back to the name lookup. -/
def getCellSpec (row headers : List Str) (name : Str) (index : JsNum) : Str :=
  match index with
  | JsNum.int z => if 0 < z then row.getD (z.toNat - 1) [] else nameCellSpec row headers name
  | _ => nameCellSpec row headers name

/-- The quoting of the round-trip property: every double quote of the cell doubled. -/
def escapeCell : Str → Str
  | [] => []
  | ch :: rest => if ch = dquote then dquote :: dquote :: escapeCell rest else ch :: escapeCell rest

/-- The cell wrapped in double quotes, its inner double quotes doubled. -/
def serializeCell (c : Str) : Str :=
  dquote :: (escapeCell c ++ [dquote])

/-- The serialised cells of a row joined with commas. -/
def serializeRow : List Str → Str
  | [] => []
  | [c] => serializeCell c
  | c :: d :: rest => serializeCell c ++ comma :: serializeRow (d :: rest)

/-- The variables `out` and `cur` of `parseLine` after a stretch of the line that is
read outside quotes and holds no double quote: a comma closes the current field, any
other character joins it. -/
def unquotedState (out : List Str) (cur : Str) : Str → List Str × Str
  | [] => (out, cur)
  | ch :: rest =>
    if ch = comma then unquotedState (out ++ [trim cur]) [] rest
    else unquotedState out (cur ++ [ch]) rest

/-! ## Concrete inputs -/

/-- A configuration for a roster with the header `id,signed`: identity in column 1,
signed flag in column 2, no scope column, `REMOVE_DENIED` on, members intent on. -/
def scenarioConfig : Config :=
  { COL_ID_FIELD := [], COL_SIGNED_FIELD := ndaSignedName, COL_GUILDID_FIELD := [],
    COL_ID_INDEX := .int 1, COL_SIGNED_INDEX := .int 2, COL_GUILDID_INDEX := .int 0,
    REMOVE_MISSING := false, REMOVE_DENIED := true, BAN_NON_SIGNED := false,
    USE_GUILD_MEMBERS_INTENT := true }

/-- The header `id,signed`. -/
def scenarioHeaders : List Str := [['i', 'd'], ['s', 'i', 'g', 'n', 'e', 'd']]

/-- Two rows for the identity `123`: signed `true`, then signed `no`. -/
def rowsYesThenNo : List (List Str) :=
  [[['1', '2', '3'], ['t', 'r', 'u', 'e']], [['1', '2', '3'], ['n', 'o']]]

/-- Two rows for the identity `5`: signed `no`, then signed `yes`. -/
def rowsNoThenYes : List (List Str) :=
  [[['5'], ['n', 'o']], [['5'], ['y', 'e', 's']]]

/-- The roster of the first scenario: `123,true` and `456,no`. -/
def scenarioSheet : Sheet :=
  { headers := scenarioHeaders
    rows := [[['1', '2', '3'], ['t', 'r', 'u', 'e']], [['4', '5', '6'], ['n', 'o']]] }

/-- A guild `9` with three fetched members: `789` holding the role, `123` and `456`
without it; every single-member fetch rejects, every mutation succeeds and is
verified. -/
def scenarioGuild : Guild :=
  { id := ['9'], roleFound := true,
    membersFetch := some [⟨['7', '8', '9'], true⟩, ⟨['1', '2', '3'], false⟩,
      ⟨['4', '5', '6'], false⟩],
    sheet := some scenarioSheet,
    fetchMember := fun _ _ => none,
    rolesAdd := fun _ => some true, refetchAdd := fun _ => none,
    rolesRemove := fun _ => some false, refetchRemove := fun _ => none,
    ban := fun _ => true }

/-- The scenario guild when `123` and `456` are not among its members. -/
def outsiderGuild : Guild :=
  { scenarioGuild with membersFetch := some [⟨['7', '8', '9'], true⟩] }

/-- The scenario guild once it agrees with the roster: `123` holds the role, `456`
does not, and there is no other member. -/
def settledGuild : Guild :=
  { scenarioGuild with
    membersFetch := some [⟨['1', '2', '3'], true⟩, ⟨['4', '5', '6'], false⟩] }

/-- The scenario guild observed without the member list: the bulk fetch rejects, the
single fetch finds `123` without the role and `456` with it, and nobody else. -/
def degradedGuild : Guild :=
  { scenarioGuild with
    membersFetch := none
    fetchMember := fun _ id =>
      if id = ['1', '2', '3'] then some false
      else if id = ['4', '5', '6'] then some true
      else none }

/-- The configuration of the scenarios with all three policy switches on. -/
def fullPolicyConfig : Config :=
  { scenarioConfig with REMOVE_MISSING := true, BAN_NON_SIGNED := true }

/-- The configuration of the scenarios with the scope in column 3. -/
def scopedConfig : Config :=
  { scenarioConfig with COL_GUILDID_INDEX := .int 3 }

/-- Three rows with a scope cell: scope `9`, scope `8`, and no scope. -/
def scopedRows : List (List Str) :=
  [[['1', '2', '3'], ['t', 'r', 'u', 'e'], ['9']],
   [['4', '5', '6'], ['y', 'e', 's'], ['8']],
   [['7'], ['n', 'o'], []]]

/-- The memo after an error-free cycle on the settled guild. -/
def settledMemo : SyncState :=
  ⟨[(['9'], ⟨['1', '2', '3'], ['1', '2', '3'], ['4', '5', '6']⟩)]⟩

/-- The scenario guild when every call `roles.add` rejects. -/
def rejectingGuild : Guild :=
  { scenarioGuild with rolesAdd := fun _ => none }

/-- The scenario guild when `roles.add` resolves with a member that does not show the
role and the re-read `m2.fetch()` rejects. -/
def unverifiedGuild : Guild :=
  { scenarioGuild with rolesAdd := fun _ => some false, refetchAdd := fun _ => none }

/-! ## Lemmas on sets and on the classification loop -/

theorem mem_setAdd {s : List Str} {x y : Str} : y ∈ setAdd s x ↔ y ∈ s ∨ y = x := by
  unfold setAdd
  by_cases h : x ∈ s
  · simp only [h, if_true]
    constructor
    · exact Or.inl
    · rintro (h1 | h1)
      · exact h1
      · exact h1 ▸ h
  · simp [h]

theorem testDigits_ne_nil {s : Str} (h : testDigits s = true) : s.isEmpty = false := by
  cases s with
  | nil => simp [testDigits] at h
  | cons a t => rfl

theorem classifyRow_eq (cfg : Config) (headers : List Str) (guildId : Str) (acc : Sets)
    (r : List Str) :
    classifyRow cfg headers guildId acc r =
      if rowApplicable cfg headers guildId r then
        if parseBool (signedValOf cfg headers r) then
          { acc with allowed := setAdd acc.allowed (idRawOf cfg headers r) }
        else if isExplicitNo (signedValOf cfg headers r) then
          { acc with denied := setAdd acc.denied (idRawOf cfg headers r) }
        else acc
      else acc := by
  unfold classifyRow rowApplicable
  by_cases hd : testDigits (idRawOf cfg headers r) = true
  · have hne := testDigits_ne_nil hd
    simp only [hd, hne, if_true, Bool.true_and, Bool.false_eq_true, if_false]
    by_cases hs : (limitToGuild cfg &&
      (!(gidOf cfg headers r).isEmpty && decide (gidOf cfg headers r ≠ guildId))) = true
    · simp only [hs, if_true, Bool.not_true, Bool.false_eq_true, if_false]
    · simp only [Bool.not_eq_true] at hs
      simp only [hs, Bool.false_eq_true, if_false, Bool.not_false, if_true]
  · simp only [Bool.not_eq_true] at hd
    by_cases he : (idRawOf cfg headers r).isEmpty = true
    · simp [he, hd]
    · simp [he, hd]

theorem parseBool_excludes_no {v : Str} (h : parseBool v = true) : isExplicitNo v = false := by
  unfold parseBool at h
  unfold isExplicitNo
  simp only [Bool.or_eq_true, decide_eq_true_eq] at h
  rcases h with ((h | h) | h) | h <;> simp [h]

theorem mem_classifyRow_allowed (cfg : Config) (headers : List Str) (guildId : Str)
    (acc : Sets) (r : List Str) (x : Str) :
    x ∈ (classifyRow cfg headers guildId acc r).allowed ↔
      x ∈ acc.allowed ∨ (rowSigned cfg headers guildId r = true ∧ idRawOf cfg headers r = x) := by
  rw [classifyRow_eq]
  unfold rowSigned
  by_cases ha : rowApplicable cfg headers guildId r = true
  · by_cases hp : parseBool (signedValOf cfg headers r) = true
    · simp [ha, hp, mem_setAdd, eq_comm]
    · by_cases hn : isExplicitNo (signedValOf cfg headers r) = true <;> simp [ha, hp, hn]
  · simp [ha]

theorem mem_classifyRow_denied (cfg : Config) (headers : List Str) (guildId : Str)
    (acc : Sets) (r : List Str) (x : Str) :
    x ∈ (classifyRow cfg headers guildId acc r).denied ↔
      x ∈ acc.denied ∨ (rowRefused cfg headers guildId r = true ∧ idRawOf cfg headers r = x) := by
  rw [classifyRow_eq]
  unfold rowRefused
  by_cases ha : rowApplicable cfg headers guildId r = true
  · by_cases hp : parseBool (signedValOf cfg headers r) = true
    · simp [ha, hp, parseBool_excludes_no hp]
    · by_cases hn : isExplicitNo (signedValOf cfg headers r) = true
      · simp [ha, hp, hn, mem_setAdd, eq_comm]
      · simp [ha, hp, hn]
  · simp [ha]

theorem mem_foldl_classify_allowed (cfg : Config) (headers : List Str) (guildId : Str)
    (rows : List (List Str)) (acc : Sets) (x : Str) :
    x ∈ (rows.foldl (classifyRow cfg headers guildId) acc).allowed ↔
      x ∈ acc.allowed ∨
        ∃ r ∈ rows, rowSigned cfg headers guildId r = true ∧ idRawOf cfg headers r = x := by
  induction rows generalizing acc with
  | nil => simp
  | cons r rs ih =>
    rw [List.foldl_cons, ih, mem_classifyRow_allowed]
    simp only [List.mem_cons, exists_eq_or_imp]
    tauto

theorem mem_foldl_classify_denied (cfg : Config) (headers : List Str) (guildId : Str)
    (rows : List (List Str)) (acc : Sets) (x : Str) :
    x ∈ (rows.foldl (classifyRow cfg headers guildId) acc).denied ↔
      x ∈ acc.denied ∨
        ∃ r ∈ rows, rowRefused cfg headers guildId r = true ∧ idRawOf cfg headers r = x := by
  induction rows generalizing acc with
  | nil => simp
  | cons r rs ih =>
    rw [List.foldl_cons, ih, mem_classifyRow_denied]
    simp only [List.mem_cons, exists_eq_or_imp]
    tauto

theorem mem_classify_allowed (cfg : Config) (headers : List Str) (rows : List (List Str))
    (guildId x : Str) :
    x ∈ (classify cfg headers rows guildId).allowed ↔
      ∃ r ∈ rows, rowSigned cfg headers guildId r = true ∧ idRawOf cfg headers r = x := by
  unfold classify
  rw [mem_foldl_classify_allowed]
  simp

theorem mem_classify_denied (cfg : Config) (headers : List Str) (rows : List (List Str))
    (guildId x : Str) :
    x ∈ (classify cfg headers rows guildId).denied ↔
      ∃ r ∈ rows, rowRefused cfg headers guildId r = true ∧ idRawOf cfg headers r = x := by
  unfold classify
  rw [mem_foldl_classify_denied]
  simp

/-! ## Classification: disjointness and conflicting rows -/

/-- C1, as stated, fails: on the rows `123,true` and `123,no` the identity `123` is a
member of both `allowed` and `denied`. -/
theorem classify_not_disjoint :
    ['1', '2', '3'] ∈ (classify scenarioConfig scenarioHeaders rowsYesThenNo ['9']).allowed ∧
      ['1', '2', '3'] ∈ (classify scenarioConfig scenarioHeaders rowsYesThenNo ['9']).denied := by
  decide

/-- C1, amended: the sets `allowed` and `denied` of one classification pass are
disjoint exactly when no identity is carried both by an applicable signed row and by
an applicable explicitly-not-signed row. -/
theorem classify_disjoint_iff (cfg : Config) (headers : List Str) (rows : List (List Str))
    (guildId : Str) :
    (∀ x, ¬(x ∈ (classify cfg headers rows guildId).allowed ∧
          x ∈ (classify cfg headers rows guildId).denied)) ↔
      ∀ r1 ∈ rows, ∀ r2 ∈ rows, rowSigned cfg headers guildId r1 = true →
        rowRefused cfg headers guildId r2 = true →
        idRawOf cfg headers r1 ≠ idRawOf cfg headers r2 := by
  constructor
  · intro h r1 h1 r2 h2 hs hr heq
    exact h (idRawOf cfg headers r1)
      ⟨(mem_classify_allowed cfg headers rows guildId _).2 ⟨r1, h1, hs, rfl⟩,
       (mem_classify_denied cfg headers rows guildId _).2 ⟨r2, h2, hr, heq.symm⟩⟩
  · rintro h x ⟨ha, hd⟩
    obtain ⟨r1, h1, hs, e1⟩ := (mem_classify_allowed cfg headers rows guildId x).1 ha
    obtain ⟨r2, h2, hr, e2⟩ := (mem_classify_denied cfg headers rows guildId x).1 hd
    exact h r1 h1 r2 h2 hs hr (e1.trans e2.symm)

/-- C2, as stated, fails: on the rows `5,no` and `5,yes` the last row for the
identity `5` is signed and not an explicit no, yet `5` is a member of `denied`. -/
theorem classify_not_last_write_wins :
    rowsNoThenYes.getLast? = some [['5'], ['y', 'e', 's']] ∧
      idRawOf scenarioConfig scenarioHeaders [['5'], ['y', 'e', 's']] = ['5'] ∧
      rowSigned scenarioConfig scenarioHeaders ['9'] [['5'], ['y', 'e', 's']] = true ∧
      rowRefused scenarioConfig scenarioHeaders ['9'] [['5'], ['y', 'e', 's']] = false ∧
      ['5'] ∈ (classify scenarioConfig scenarioHeaders rowsNoThenYes ['9']).denied := by
  decide

/-- C2, amended: an identity is in `allowed` if and only if some applicable row
carrying it is signed, and in `denied` if and only if some applicable row carrying it
is explicitly not signed, whatever the order of the rows; an identity with
conflicting rows is in both sets. -/
theorem classify_mem_iff (cfg : Config) (headers : List Str) (rows : List (List Str))
    (guildId x : Str) :
    (x ∈ (classify cfg headers rows guildId).allowed ↔
        ∃ r ∈ rows, rowSigned cfg headers guildId r = true ∧ idRawOf cfg headers r = x) ∧
      (x ∈ (classify cfg headers rows guildId).denied ↔
        ∃ r ∈ rows, rowRefused cfg headers guildId r = true ∧ idRawOf cfg headers r = x) :=
  ⟨mem_classify_allowed cfg headers rows guildId x, mem_classify_denied cfg headers rows guildId x⟩

/-! ## Lemmas on trimming and on the candidate loops -/

theorem dropWhile_eq_self_of_all {p : Char → Bool} {l : List Char}
    (h : ∀ c ∈ l, p c = false) : l.dropWhile p = l := by
  cases l with
  | nil => rfl
  | cons a t => simp [List.dropWhile_cons, h a (List.mem_cons_self a t)]

theorem isJsSpace_of_digit {c : Char} (h : isDigitChar c = true) : isJsSpace c = false := by
  unfold isDigitChar at h
  unfold isJsSpace
  simp only [Bool.and_eq_true, decide_eq_true_eq] at h
  rw [decide_eq_false_iff_not]
  intro hmem
  simp only [List.mem_cons, List.mem_singleton, List.not_mem_nil, or_false] at hmem
  omega

theorem trim_of_testDigits {s : Str} (h : testDigits s = true) : trim s = s := by
  have hall : ∀ c ∈ s, isJsSpace c = false := by
    intro c hc
    apply isJsSpace_of_digit
    unfold testDigits at h
    simp only [Bool.and_eq_true, List.all_eq_true] at h
    exact h.2 c hc
  unfold trim
  rw [dropWhile_eq_self_of_all hall, dropWhile_eq_self_of_all, List.reverse_reverse]
  intro c hc
  exact hall c (List.mem_reverse.1 hc)

theorem foldl_push_filter (p : Str → Bool) (f : List Str → Str → List Str)
    (hf : ∀ acc id, f acc id = if p id = true then acc ++ [id] else acc)
    (l init : List Str) : l.foldl f init = init ++ l.filter p := by
  induction l generalizing init with
  | nil => simp
  | cons a t ih =>
    rw [List.foldl_cons, ih, hf]
    by_cases hp : p a = true
    · simp [hp, List.filter_cons]
    · simp [hp, List.filter_cons]

theorem mem_foldl_setAdd (l acc : List Str) (x : Str) :
    x ∈ l.foldl setAdd acc ↔ x ∈ acc ∨ x ∈ l := by
  induction l generalizing acc with
  | nil => simp
  | cons a t ih =>
    rw [List.foldl_cons, ih, mem_setAdd]
    simp only [List.mem_cons]
    tauto

theorem mem_foldl_probe (probe : Str → Option Bool) (l acc : List Str) (x : Str) :
    x ∈ l.foldl (fun acc id =>
        match probe id with
        | some hasRole => if hasRole && !decide (id ∈ acc) then acc ++ [id] else acc
        | none => acc) acc ↔
      x ∈ acc ∨ (x ∈ l ∧ probe x = some true) := by
  induction l generalizing acc with
  | nil => simp
  | cons a t ih =>
    rw [List.foldl_cons, ih]
    simp only [List.mem_cons]
    cases hpa : probe a with
    | none =>
      constructor
      · rintro (h | h)
        · exact Or.inl h
        · exact Or.inr ⟨Or.inr h.1, h.2⟩
      · rintro (h | ⟨h | h, hp⟩)
        · exact Or.inl h
        · rw [h, hpa] at hp; cases hp
        · exact Or.inr ⟨h, hp⟩
    | some b =>
      cases b with
      | false =>
        simp only [Bool.false_and, Bool.false_eq_true, if_false]
        constructor
        · rintro (h | h)
          · exact Or.inl h
          · exact Or.inr ⟨Or.inr h.1, h.2⟩
        · rintro (h | ⟨h | h, hp⟩)
          · exact Or.inl h
          · rw [h, hpa] at hp; cases hp
          · exact Or.inr ⟨h, hp⟩
      | true =>
        by_cases hm : a ∈ acc
        · simp only [hm, decide_True, Bool.not_true, Bool.and_false, Bool.false_eq_true, if_false]
          constructor
          · rintro (h | h)
            · exact Or.inl h
            · exact Or.inr ⟨Or.inr h.1, h.2⟩
          · rintro (h | ⟨h | h, hp⟩)
            · exact Or.inl h
            · exact Or.inl (h ▸ hm)
            · exact Or.inr ⟨h, hp⟩
        · simp only [hm, decide_False, Bool.not_false, Bool.and_self, if_true, List.mem_append,
            List.mem_singleton]
          constructor
          · rintro ((h | h) | h)
            · exact Or.inl h
            · exact Or.inr ⟨Or.inl h, h ▸ hpa⟩
            · exact Or.inr ⟨Or.inr h.1, h.2⟩
          · rintro (h | ⟨h | h, hp⟩)
            · exact Or.inl (Or.inl h)
            · exact Or.inl (Or.inr h)
            · exact Or.inr ⟨h, hp⟩

theorem toAdd_eq_filter (g : Guild) (members : Option (List Member)) (allowed : List Str) :
    toAdd g members allowed =
      allowed.filter (fun id => decide (lookupForAdd g members id = some false)) := by
  unfold toAdd
  rw [foldl_push_filter (fun id => decide (lookupForAdd g members id = some false))]
  · simp
  · intro acc id
    cases h : lookupForAdd g members id with
    | none => simp
    | some b => cases b <;> simp

theorem mem_toAdd (g : Guild) (members : Option (List Member)) (allowed : List Str) (x : Str) :
    x ∈ toAdd g members allowed ↔ x ∈ allowed ∧ lookupForAdd g members x = some false := by
  rw [toAdd_eq_filter]
  simp [List.mem_filter]

theorem mem_toRemoveMissing (cfg : Config) (members : Option (List Member))
    (allowed : List Str) (x : Str) :
    x ∈ toRemoveMissing cfg members allowed ↔
      cfg.REMOVE_MISSING = true ∧ members.isSome = true ∧
        x ∈ holdersOf members ∧ x ∉ allowed := by
  unfold toRemoveMissing
  rw [foldl_push_filter (fun id => !decide (id ∈ allowed)) _ (fun _ _ => rfl)]
  by_cases hr : cfg.REMOVE_MISSING = true
  · by_cases hs : members.isSome = true
    · by_cases hl : (holdersOf members).length = 0
      · have hnil : holdersOf members = [] := List.length_eq_zero.1 hl
        simp [hr, hs, hnil]
      · simp [hr, hs, hl, List.mem_filter]
    · simp [hr, hs]
  · simp [hr]

theorem mem_toRemove (cfg : Config) (g : Guild) (members : Option (List Member))
    (allowed denied : List Str) (x : Str) :
    x ∈ toRemove cfg g members allowed denied ↔
      x ∈ toRemoveMissing cfg members allowed ∨
        (cfg.REMOVE_DENIED = true ∧ x ∈ denied ∧
          (members.isSome = true ∨ g.fetchMember .candRemove x = some true)) := by
  unfold toRemove
  by_cases hd : cfg.REMOVE_DENIED = true
  · by_cases hs : members.isSome = true
    · simp only [hd, hs, if_true, mem_foldl_setAdd]
      tauto
    · simp only [hd, hs, if_true, Bool.false_eq_true, if_false, mem_foldl_probe]
      tauto
  · simp [hd]

theorem toBan_eq_filter (cfg : Config) (g : Guild) (members : Option (List Member))
    (denied : List Str) :
    toBan cfg g members denied =
      if cfg.BAN_NON_SIGNED = true then denied.filter (confirmedPresent g members) else [] := by
  unfold toBan
  by_cases hb : cfg.BAN_NON_SIGNED = true
  · simp only [hb, if_true]
    cases members with
    | some ms => rfl
    | none =>
      simp only
      rw [foldl_push_filter (confirmedPresent g none)]
      · simp
      · intro acc id
        unfold confirmedPresent
        cases h : g.fetchMember Phase.candBan id <;> simp
  · simp [hb]

theorem testDigits_of_mem_allowed {cfg : Config} {headers : List Str} {rows : List (List Str)}
    {guildId x : Str} (h : x ∈ (classify cfg headers rows guildId).allowed) :
    testDigits x = true := by
  obtain ⟨r, _, hs, rfl⟩ := (mem_classify_allowed cfg headers rows guildId x).1 h
  unfold rowSigned rowApplicable at hs
  simp only [Bool.and_eq_true] at hs
  exact hs.1.1

theorem testDigits_of_mem_denied {cfg : Config} {headers : List Str} {rows : List (List Str)}
    {guildId x : Str} (h : x ∈ (classify cfg headers rows guildId).denied) :
    testDigits x = true := by
  obtain ⟨r, _, hs, rfl⟩ := (mem_classify_denied cfg headers rows guildId x).1 h
  unfold rowRefused rowApplicable at hs
  simp only [Bool.and_eq_true] at hs
  exact hs.1.1

theorem foldl_classify_filter (cfg : Config) (headers : List Str) (guildId : Str)
    (hlim : limitToGuild cfg = true) (rows : List (List Str)) (acc : Sets) :
    rows.foldl (classifyRow cfg headers guildId) acc =
      (rows.filter (scopeKeeps cfg headers guildId)).foldl (classifyRow cfg headers guildId) acc := by
  induction rows generalizing acc with
  | nil => rfl
  | cons r rs ih =>
    by_cases hk : scopeKeeps cfg headers guildId r = true
    · rw [List.filter_cons_of_pos hk, List.foldl_cons, List.foldl_cons, ih]
    · rw [List.filter_cons_of_neg hk, List.foldl_cons, ih]
      have hna : rowApplicable cfg headers guildId r = false := by
        unfold scopeKeeps at hk
        unfold rowApplicable
        simp only [Bool.not_eq_true, Bool.not_eq_false_eq_eq_true] at hk
        rw [hlim, hk]
        simp
      rw [classifyRow_eq, hna]
      simp

/-! ## Classification: identity filter, scope filter, signed cell -/

/-- C3: when the observed holders are identities (digit strings, as every member id of
the platform is), every member of `allowed`, `denied`, `toAdd`, `toRemove` and `toBan`
is a non-empty string of decimal digits, and a value that fails `^\d+$` after trimming
is in none of the five. -/
theorem candidates_are_digit_ids (cfg : Config) (g : Guild) (headers : List Str)
    (rows : List (List Str))
    (hobs : ∀ h ∈ holdersOf (observeMembers cfg g), testDigits h = true) :
    (∀ x,
        (x ∈ (classify cfg headers rows g.id).allowed ∨
          x ∈ (classify cfg headers rows g.id).denied ∨
          x ∈ toAdd g (observeMembers cfg g) (classify cfg headers rows g.id).allowed ∨
          x ∈ toRemove cfg g (observeMembers cfg g) (classify cfg headers rows g.id).allowed
                (classify cfg headers rows g.id).denied ∨
          x ∈ toBan cfg g (observeMembers cfg g) (classify cfg headers rows g.id).denied) →
        testDigits x = true) ∧
      (∀ v, testDigits (trim v) = false →
        v ∉ (classify cfg headers rows g.id).allowed ∧
          v ∉ (classify cfg headers rows g.id).denied ∧
          v ∉ toAdd g (observeMembers cfg g) (classify cfg headers rows g.id).allowed ∧
          v ∉ toRemove cfg g (observeMembers cfg g) (classify cfg headers rows g.id).allowed
                (classify cfg headers rows g.id).denied ∧
          v ∉ toBan cfg g (observeMembers cfg g) (classify cfg headers rows g.id).denied) := by
  have key : ∀ x,
      (x ∈ (classify cfg headers rows g.id).allowed ∨
        x ∈ (classify cfg headers rows g.id).denied ∨
        x ∈ toAdd g (observeMembers cfg g) (classify cfg headers rows g.id).allowed ∨
        x ∈ toRemove cfg g (observeMembers cfg g) (classify cfg headers rows g.id).allowed
              (classify cfg headers rows g.id).denied ∨
        x ∈ toBan cfg g (observeMembers cfg g) (classify cfg headers rows g.id).denied) →
      testDigits x = true := by
    intro x hx
    rcases hx with h | h | h | h | h
    · exact testDigits_of_mem_allowed h
    · exact testDigits_of_mem_denied h
    · exact testDigits_of_mem_allowed ((mem_toAdd _ _ _ _).1 h).1
    · rcases (mem_toRemove _ _ _ _ _ _).1 h with h1 | h1
      · exact hobs x ((mem_toRemoveMissing _ _ _ _).1 h1).2.2.1
      · exact testDigits_of_mem_denied h1.2.1
    · rw [toBan_eq_filter] at h
      by_cases hb : cfg.BAN_NON_SIGNED = true
      · rw [if_pos hb] at h
        exact testDigits_of_mem_denied (List.mem_filter.1 h).1
      · rw [if_neg hb] at h
        cases h
  refine ⟨key, ?_⟩
  intro v hv
  have hno : ∀ {l : List Str}, (v ∈ l → testDigits v = true) → v ∉ l := by
    intro l hl hmem
    have ht := hl hmem
    rw [trim_of_testDigits ht, ht] at hv
    cases hv
  exact ⟨hno fun h => key v (Or.inl h),
    hno fun h => key v (Or.inr (Or.inl h)),
    hno fun h => key v (Or.inr (Or.inr (Or.inl h))),
    hno fun h => key v (Or.inr (Or.inr (Or.inr (Or.inl h)))),
    hno fun h => key v (Or.inr (Or.inr (Or.inr (Or.inr h))))⟩

/-- C3 at the scenario guild with all policies on: the holder `789` is an identity,
and the value `bob` is not scheduled for removal. -/
theorem candidates_are_digit_ids_witness :
    (∀ h ∈ holdersOf (observeMembers fullPolicyConfig scenarioGuild), testDigits h = true) ∧
      ['b', 'o', 'b'] ∉ toRemove fullPolicyConfig scenarioGuild
        (observeMembers fullPolicyConfig scenarioGuild)
        (classify fullPolicyConfig scenarioHeaders scenarioSheet.rows scenarioGuild.id).allowed
        (classify fullPolicyConfig scenarioHeaders scenarioSheet.rows scenarioGuild.id).denied :=
  ⟨by decide,
    ((candidates_are_digit_ids fullPolicyConfig scenarioGuild scenarioHeaders scenarioSheet.rows
      (by decide)).2 ['b', 'o', 'b'] (by decide)).2.2.2.1⟩

/-- C4: when a scope column is configured, the sets computed for a scope equal the
sets computed after deleting every row whose trimmed scope cell is non-empty and
different from the scope; a row whose scope cell is empty is classified the same way
for every scope. -/
theorem classify_scope_filter (cfg : Config) (headers : List Str) (rows : List (List Str))
    (guildId : Str) (hlim : limitToGuild cfg = true) :
    classify cfg headers rows guildId =
        classify cfg headers (rows.filter (scopeKeeps cfg headers guildId)) guildId ∧
      ∀ (r : List Str) (acc : Sets) (other : Str), (gidOf cfg headers r).isEmpty = true →
        classifyRow cfg headers guildId acc r = classifyRow cfg headers other acc r := by
  refine ⟨foldl_classify_filter cfg headers guildId hlim rows _, ?_⟩
  intro r acc other hempty
  rw [classifyRow_eq, classifyRow_eq]
  unfold rowApplicable
  simp [hempty]

/-- C4 on three rows with scopes `9`, `8` and none, classified for the scope `9`. -/
theorem classify_scope_filter_witness :
    limitToGuild scopedConfig = true ∧
      scopedRows.filter (scopeKeeps scopedConfig scenarioHeaders ['9']) =
        [[['1', '2', '3'], ['t', 'r', 'u', 'e'], ['9']], [['7'], ['n', 'o'], []]] ∧
      classify scopedConfig scenarioHeaders scopedRows ['9'] =
        classify scopedConfig scenarioHeaders
          (scopedRows.filter (scopeKeeps scopedConfig scenarioHeaders ['9'])) ['9'] :=
  ⟨by decide, by decide,
    (classify_scope_filter scopedConfig scenarioHeaders scopedRows ['9'] (by decide)).1⟩

/-- C5: on the signed cell trimmed and lower-cased, `parseBool` holds exactly for
`true`, `1`, `yes`, `y` and `isExplicitNo` exactly for `false`, `0`, `no`, `n`; the two
never hold together; an applicable row adds its identity to `allowed` when the cell is
signed, to `denied` when it is an explicit no, and changes neither set otherwise. -/
theorem signed_cell_three_outcomes (cfg : Config) (headers : List Str) (guildId : Str)
    (acc : Sets) (r : List Str) (happ : rowApplicable cfg headers guildId r = true) :
    (∀ v, (parseBool v = true ↔
          toLowerCase (trim v) ∈
            [['t', 'r', 'u', 'e'], ['1'], ['y', 'e', 's'], ['y']]) ∧
        (isExplicitNo v = true ↔
          toLowerCase (trim v) ∈
            [['f', 'a', 'l', 's', 'e'], ['0'], ['n', 'o'], ['n']]) ∧
        ¬(parseBool v = true ∧ isExplicitNo v = true)) ∧
      (parseBool (signedValOf cfg headers r) = true →
        classifyRow cfg headers guildId acc r =
          { allowed := setAdd acc.allowed (idRawOf cfg headers r), denied := acc.denied }) ∧
      (isExplicitNo (signedValOf cfg headers r) = true →
        classifyRow cfg headers guildId acc r =
          { allowed := acc.allowed, denied := setAdd acc.denied (idRawOf cfg headers r) }) ∧
      (parseBool (signedValOf cfg headers r) = false →
        isExplicitNo (signedValOf cfg headers r) = false →
        classifyRow cfg headers guildId acc r = acc) := by
  refine ⟨?_, ?_, ?_, ?_⟩
  · intro v
    refine ⟨?_, ?_, ?_⟩
    · unfold parseBool
      simp only [Bool.or_eq_true, decide_eq_true_eq, List.mem_cons, List.mem_singleton,
        List.not_mem_nil, or_false, or_assoc]
    · unfold isExplicitNo
      simp only [Bool.or_eq_true, decide_eq_true_eq, List.mem_cons, List.mem_singleton,
        List.not_mem_nil, or_false, or_assoc]
    · rintro ⟨hp, hn⟩
      rw [parseBool_excludes_no hp] at hn
      cases hn
  · intro hp
    rw [classifyRow_eq, happ, if_pos rfl, if_pos hp]
  · intro hn
    have hp : parseBool (signedValOf cfg headers r) = false := by
      cases h : parseBool (signedValOf cfg headers r) with
      | false => rfl
      | true => rw [parseBool_excludes_no h] at hn; cases hn
    rw [classifyRow_eq, happ, if_pos rfl, hp, if_neg (by decide), if_pos hn]
  · intro hp hn
    rw [classifyRow_eq, happ, if_pos rfl, hp, hn]
    simp

/-- C5 on the applicable row `456,no` of the scenario roster: it is an explicit no
and adds `456` to `denied`. -/
theorem signed_cell_three_outcomes_witness :
    rowApplicable scenarioConfig scenarioHeaders ['9'] [['4', '5', '6'], ['n', 'o']] = true ∧
      isExplicitNo (signedValOf scenarioConfig scenarioHeaders [['4', '5', '6'], ['n', 'o']])
        = true ∧
      classifyRow scenarioConfig scenarioHeaders ['9'] ⟨[['1', '2', '3']], []⟩
          [['4', '5', '6'], ['n', 'o']] =
        { allowed := [['1', '2', '3']],
          denied := setAdd [] (idRawOf scenarioConfig scenarioHeaders
            [['4', '5', '6'], ['n', 'o']]) } :=
  ⟨by decide, by decide,
    (signed_cell_three_outcomes scenarioConfig scenarioHeaders ['9'] ⟨[['1', '2', '3']], []⟩
      [['4', '5', '6'], ['n', 'o']] (by decide)).2.2.1 (by decide)⟩

/-! ## Diff: the three candidate lists -/

/-- C6, as stated, fails: in the guild where `123` is not a member and cannot be
fetched, `123` is in `allowed` and does not hold the role, yet it is not in `toAdd`. -/
theorem toAdd_skips_unreachable :
    ['1', '2', '3'] ∈
        (classify scenarioConfig scenarioHeaders scenarioSheet.rows outsiderGuild.id).allowed ∧
      lookupForAdd outsiderGuild (observeMembers scenarioConfig outsiderGuild) ['1', '2', '3']
        = none ∧
      ['1', '2', '3'] ∉ holdersOf (observeMembers scenarioConfig outsiderGuild) ∧
      ['1', '2', '3'] ∉ toAdd outsiderGuild (observeMembers scenarioConfig outsiderGuild)
        (classify scenarioConfig scenarioHeaders scenarioSheet.rows outsiderGuild.id).allowed := by
  decide

/-- C6, amended: in both fidelity modes an identity is in `toAdd` if and only if it is
in `allowed` and its own lookup (the fetched member, else a single-member fetch)
succeeds and shows the member without the role; `toAdd` lists these identities in the
order of `allowed`, and an identity whose lookup fails is left out. -/
theorem toAdd_iff (g : Guild) (members : Option (List Member)) (allowed : List Str) :
    (∀ id, id ∈ toAdd g members allowed ↔
        id ∈ allowed ∧ lookupForAdd g members id = some false) ∧
      toAdd g members allowed =
        allowed.filter (fun id => decide (lookupForAdd g members id = some false)) ∧
      (∀ id, lookupForAdd g none id = g.fetchMember .candAdd id) ∧
      (∀ ms id, lookupForAdd g (some ms) id =
        match membersGet ms id with
        | some m => some m.hasRole
        | none => g.fetchMember .candAdd id) :=
  ⟨mem_toAdd g members allowed, toAdd_eq_filter g members allowed, fun _ => rfl,
    fun _ _ => rfl⟩

/-- C7: with `REMOVE_MISSING` on and the member list fetched, every holder that is not
in `allowed` is in `toRemove`; with `REMOVE_MISSING` off or without the member list,
every member of `toRemove` is in `denied`. -/
theorem toRemove_missing_policy (cfg : Config) (g : Guild) (members : Option (List Member))
    (allowed denied : List Str) :
    (cfg.REMOVE_MISSING = true → members.isSome = true →
        ∀ h ∈ holdersOf members, h ∉ allowed → h ∈ toRemove cfg g members allowed denied) ∧
      (cfg.REMOVE_MISSING = false ∨ members.isSome = false →
        ∀ x ∈ toRemove cfg g members allowed denied, x ∈ denied) := by
  constructor
  · intro hr hs h hh hna
    exact (mem_toRemove _ _ _ _ _ _).2 (Or.inl ((mem_toRemoveMissing _ _ _ _).2 ⟨hr, hs, hh, hna⟩))
  · intro hoff x hx
    rcases (mem_toRemove _ _ _ _ _ _).1 hx with h1 | h1
    · obtain ⟨hr, hs, _, _⟩ := (mem_toRemoveMissing _ _ _ _).1 h1
      rcases hoff with h | h
      · rw [hr] at h; cases h
      · rw [hs] at h; cases h
    · exact h1.2.1

/-- C7 on the scenario guild with `REMOVE_MISSING` on: the holder `789`, absent from
the roster, is scheduled for removal. -/
theorem toRemove_missing_policy_witness :
    fullPolicyConfig.REMOVE_MISSING = true ∧
      (observeMembers fullPolicyConfig scenarioGuild).isSome = true ∧
      ['7', '8', '9'] ∈ toRemove fullPolicyConfig scenarioGuild
        (observeMembers fullPolicyConfig scenarioGuild) [['1', '2', '3']] [['4', '5', '6']] :=
  ⟨rfl, rfl,
    (toRemove_missing_policy fullPolicyConfig scenarioGuild
      (observeMembers fullPolicyConfig scenarioGuild) [['1', '2', '3']] [['4', '5', '6']]).1
      rfl rfl ['7', '8', '9'] (by decide) (by decide)⟩

/-- C8: with `REMOVE_DENIED` on and the member list fetched, every identity of `denied`
is in `toRemove`; with `REMOVE_DENIED` on and no member list, an identity of `denied` is
in `toRemove` if and only if its single-member fetch succeeds and shows the role; with
`REMOVE_DENIED` off, `toRemove` is the list left by the `REMOVE_MISSING` block, the same
as for an empty `denied`. -/
theorem toRemove_denied_policy (cfg : Config) (g : Guild) (members : Option (List Member))
    (allowed denied : List Str) :
    (cfg.REMOVE_DENIED = true → members.isSome = true →
        ∀ d ∈ denied, d ∈ toRemove cfg g members allowed denied) ∧
      (cfg.REMOVE_DENIED = true → members.isSome = false →
        ∀ d ∈ denied, (d ∈ toRemove cfg g members allowed denied ↔
          g.fetchMember .candRemove d = some true)) ∧
      (cfg.REMOVE_DENIED = false →
        toRemove cfg g members allowed denied = toRemoveMissing cfg members allowed ∧
          toRemove cfg g members allowed denied = toRemove cfg g members allowed []) := by
  refine ⟨?_, ?_, ?_⟩
  · intro hd hs d hmem
    exact (mem_toRemove _ _ _ _ _ _).2 (Or.inr ⟨hd, hmem, Or.inl hs⟩)
  · intro hd hs d hmem
    rw [mem_toRemove, mem_toRemoveMissing]
    constructor
    · rintro (h | h)
      · rw [hs] at h; cases h.2.1
      · rcases h.2.2 with h2 | h2
        · rw [hs] at h2; cases h2
        · exact h2
    · intro hp
      exact Or.inr ⟨hd, hmem, Or.inr hp⟩
  · intro hd
    unfold toRemove
    simp [hd]

/-- C8 on the degraded guild: the fetch of `456` succeeds and shows the role, so `456`
is scheduled for removal. -/
theorem toRemove_denied_policy_witness :
    (observeMembers fullPolicyConfig degradedGuild).isSome = false ∧
      degradedGuild.fetchMember .candRemove ['4', '5', '6'] = some true ∧
      ['4', '5', '6'] ∈ toRemove fullPolicyConfig degradedGuild
        (observeMembers fullPolicyConfig degradedGuild) [['1', '2', '3']] [['4', '5', '6']] :=
  ⟨rfl, rfl,
    ((toRemove_denied_policy fullPolicyConfig degradedGuild
      (observeMembers fullPolicyConfig degradedGuild) [['1', '2', '3']] [['4', '5', '6']]).2.1
      rfl rfl ['4', '5', '6'] (by decide)).2 rfl⟩

/-- C9: `toBan` is empty when `BAN_NON_SIGNED` is off; when it is on, `toBan` is the
identities of `denied`, in order, that are confirmed present (in the fetched member
list, or by a single-member fetch that succeeds without it); it is the same list
whatever `REMOVE_MISSING` and `REMOVE_DENIED` are, and so whatever `toRemove` is. -/
theorem toBan_policy (cfg : Config) (g : Guild) (members : Option (List Member))
    (denied : List Str) :
    (cfg.BAN_NON_SIGNED = false → toBan cfg g members denied = []) ∧
      (cfg.BAN_NON_SIGNED = true →
        toBan cfg g members denied = denied.filter (confirmedPresent g members) ∧
          ∀ id, (id ∈ toBan cfg g members denied ↔
            id ∈ denied ∧ confirmedPresent g members id = true)) ∧
      (∀ a b : Bool,
        toBan { cfg with REMOVE_MISSING := a, REMOVE_DENIED := b } g members denied =
          toBan cfg g members denied) := by
  refine ⟨?_, ?_, ?_⟩
  · intro hb
    rw [toBan_eq_filter, hb]
    simp
  · intro hb
    rw [toBan_eq_filter, if_pos hb]
    exact ⟨rfl, fun id => List.mem_filter⟩
  · intro a b
    rfl

/-- C9 on the scenario guild with `BAN_NON_SIGNED` on: `456` is denied and a fetched
member, and is the only ban candidate. -/
theorem toBan_policy_witness :
    fullPolicyConfig.BAN_NON_SIGNED = true ∧
      [['4', '5', '6']].filter
        (confirmedPresent scenarioGuild (observeMembers fullPolicyConfig scenarioGuild)) =
        [['4', '5', '6']] ∧
      toBan fullPolicyConfig scenarioGuild (observeMembers fullPolicyConfig scenarioGuild)
        [['4', '5', '6']] =
        [['4', '5', '6']].filter
          (confirmedPresent scenarioGuild (observeMembers fullPolicyConfig scenarioGuild)) :=
  ⟨rfl, by decide,
    ((toBan_policy fullPolicyConfig scenarioGuild
      (observeMembers fullPolicyConfig scenarioGuild) [['4', '5', '6']]).2.1 rfl).1⟩

/-! ## The change-detection memo -/

theorem find_setEntry_self (guildId : Str) (k : Keys) (es : List (Str × Keys)) :
    (setEntry guildId k es).find? (fun e => decide (e.1 = guildId)) = some (guildId, k) := by
  induction es with
  | nil => simp [setEntry]
  | cons e t ih =>
    unfold setEntry
    by_cases h : e.1 = guildId
    · simp [h]
    · simp [h, ih]

theorem SyncState.get_set_self (m : SyncState) (guildId : Str) (k : Keys) :
    (m.set guildId k).get guildId = some k := by
  unfold SyncState.get SyncState.set
  simp [find_setEntry_self]

theorem sameAsPrev_of_eq (cfg : Config) (b : Bool) {prev cur : Keys}
    (ha : prev.allowedKey = cur.allowedKey) (hd : prev.deniedKey = cur.deniedKey)
    (hh : prev.holdersKey = cur.holdersKey) : sameAsPrev cfg b prev cur = true := by
  unfold sameAsPrev
  simp [ha, hd, hh]

theorem state_after_clean_cycle (cfg : Config) (m0 : SyncState) (g1 : Guild) (o1 : Outcome)
    (s1 : Sheet) (h1 : syncGuildFromSheet cfg m0 g1 false = .ok o1)
    (hsheet1 : g1.sheet = some s1) (herr : o1.result.hadErrors = some false) :
    o1.state =
      m0.set g1.id (keysOf (observeMembers cfg g1) (classify cfg s1.headers s1.rows g1.id)) := by
  unfold syncGuildFromSheet at h1
  rw [hsheet1] at h1
  simp only [] at h1
  split at h1
  · cases h1
  · split at h1
    · injection h1 with h1
      subst h1
      cases herr
    · simp only [Bool.false_eq_true, if_false] at h1
      injection h1 with h1
      subst h1
      simp only [Option.some.injEq] at herr
      simp only [herr]
      simp

/-- C10: if a real cycle returns with `hadErrors = false` and the next real cycle for
the same guild computes the same fingerprints of `allowed`, `denied` and the holders in
the same fidelity mode, then the second cycle returns the skipped result (`skipped`
true, all counts zero, empty candidate lists), leaves the memo as it is and issues no
grant, revoke or ban call. -/
theorem second_cycle_skips (cfg : Config) (m0 : SyncState) (g1 g2 : Guild) (o1 : Outcome)
    (s1 s2 : Sheet)
    (h1 : syncGuildFromSheet cfg m0 g1 false = .ok o1)
    (herr : o1.result.hadErrors = some false)
    (hsheet1 : g1.sheet = some s1)
    (hscope : g2.id = g1.id) (hrole2 : g2.roleFound = true) (hsheet2 : g2.sheet = some s2)
    (hfid : (observeMembers cfg g2).isSome = (observeMembers cfg g1).isSome)
    (hallowed : fingerprint (classify cfg s2.headers s2.rows g2.id).allowed =
      fingerprint (classify cfg s1.headers s1.rows g1.id).allowed)
    (hdenied : fingerprint (classify cfg s2.headers s2.rows g2.id).denied =
      fingerprint (classify cfg s1.headers s1.rows g1.id).denied)
    (hholders : fingerprint (holdersOf (observeMembers cfg g2)) =
      fingerprint (holdersOf (observeMembers cfg g1))) :
    syncGuildFromSheet cfg o1.state g2 false =
      .ok { result := { added := 0, removed := 0, banned := 0, toAdd := [], toRemove := [],
                        toBan := [], dryRun := false, skipped := true, hadErrors := none }
            state := o1.state
            ops := [] } := by
  have hst := state_after_clean_cycle cfg m0 g1 o1 s1 h1 hsheet1 herr
  have hget : o1.state.get g2.id =
      some (keysOf (observeMembers cfg g1) (classify cfg s1.headers s1.rows g1.id)) := by
    rw [hst, hscope, SyncState.get_set_self]
  have hsame : sameAsPrev cfg (observeMembers cfg g2).isSome
      (keysOf (observeMembers cfg g1) (classify cfg s1.headers s1.rows g1.id))
      (keysOf (observeMembers cfg g2) (classify cfg s2.headers s2.rows g2.id)) = true := by
    apply sameAsPrev_of_eq
    · exact hallowed.symm
    · exact hdenied.symm
    · unfold keysOf
      simp only [hfid, hholders]
  unfold syncGuildFromSheet
  rw [hsheet2, hrole2]
  simp only [hget, hsame]
  simp

/-- C10 on the settled guild: the first cycle revokes once without error, the second
cycle on the same observation is skipped. -/
theorem second_cycle_skips_witness :
    syncGuildFromSheet scenarioConfig ⟨[]⟩ settledGuild false =
        .ok { result := { added := 0, removed := 1, banned := 0, toAdd := [],
                          toRemove := [['4', '5', '6']], toBan := [], dryRun := false,
                          skipped := false, hadErrors := some false }
              state := ⟨[(['9'], ⟨['1', '2', '3'], ['1', '2', '3'], ['4', '5', '6']⟩)]⟩
              ops := [Op.revoke ['4', '5', '6']] } ∧
      syncGuildFromSheet scenarioConfig
          ⟨[(['9'], ⟨['1', '2', '3'], ['1', '2', '3'], ['4', '5', '6']⟩)]⟩ settledGuild false =
        .ok { result := { added := 0, removed := 0, banned := 0, toAdd := [], toRemove := [],
                          toBan := [], dryRun := false, skipped := true, hadErrors := none }
              state := ⟨[(['9'], ⟨['1', '2', '3'], ['1', '2', '3'], ['4', '5', '6']⟩)]⟩
              ops := [] } :=
  ⟨rfl,
    second_cycle_skips scenarioConfig ⟨[]⟩ settledGuild settledGuild
      { result := { added := 0, removed := 1, banned := 0, toAdd := [],
                    toRemove := [['4', '5', '6']], toBan := [], dryRun := false,
                    skipped := false, hadErrors := some false }
        state := ⟨[(['9'], ⟨['1', '2', '3'], ['1', '2', '3'], ['4', '5', '6']⟩)]⟩
        ops := [Op.revoke ['4', '5', '6']] }
      scenarioSheet scenarioSheet rfl rfl rfl rfl rfl rfl rfl rfl rfl rfl⟩

/-! ## Lemmas on the three exits of a cycle -/

theorem sameAsPrev_iff (cfg : Config) (b : Bool) (prev cur : Keys) :
    sameAsPrev cfg b prev cur = true ↔
      prev.allowedKey = cur.allowedKey ∧
        (prev.deniedKey = cur.deniedKey ∨
          (cfg.BAN_NON_SIGNED = false ∧ cfg.REMOVE_DENIED = false)) ∧
        (prev.holdersKey = cur.holdersKey ∨ b = false) := by
  unfold sameAsPrev
  cases hb : cfg.BAN_NON_SIGNED <;> cases hr : cfg.REMOVE_DENIED <;> cases b <;>
    simp [and_assoc]

theorem cycle_skipped (cfg : Config) (m : SyncState) (g : Guild) (s : Sheet) (prev : Keys)
    (hrole : g.roleFound = true) (hsheet : g.sheet = some s)
    (hget : m.get g.id = some prev)
    (hsame : sameAsPrev cfg (observeMembers cfg g).isSome prev
      (keysOf (observeMembers cfg g) (classify cfg s.headers s.rows g.id)) = true) :
    syncGuildFromSheet cfg m g false = .ok (skippedOutcome m) := by
  unfold syncGuildFromSheet skippedOutcome
  rw [hsheet, hrole]
  simp only [hget, hsame]
  simp

theorem cycle_executed (cfg : Config) (m : SyncState) (g : Guild) (s : Sheet)
    (hrole : g.roleFound = true) (hsheet : g.sheet = some s)
    (hdiff : ∀ prev, m.get g.id = some prev →
      sameAsPrev cfg (observeMembers cfg g).isSome prev
        (keysOf (observeMembers cfg g) (classify cfg s.headers s.rows g.id)) = false) :
    syncGuildFromSheet cfg m g false = .ok (executedOutcome cfg m g s) := by
  unfold syncGuildFromSheet executedOutcome finalExec
  rw [hsheet, hrole]
  cases hget : m.get g.id with
  | none => simp [execPhase]
  | some prev => simp [hdiff prev hget, execPhase]

theorem cycle_dry (cfg : Config) (m : SyncState) (g : Guild) (s : Sheet)
    (hrole : g.roleFound = true) (hsheet : g.sheet = some s) :
    syncGuildFromSheet cfg m g true = .ok (dryOutcome cfg m g s) := by
  unfold syncGuildFromSheet dryOutcome
  rw [hsheet, hrole]
  cases hget : m.get g.id <;> simp

theorem cycle_role_found (cfg : Config) (m : SyncState) (g : Guild) (dryRun : Bool)
    (o : Outcome) (hrun : syncGuildFromSheet cfg m g dryRun = .ok o) : g.roleFound = true := by
  cases h : g.roleFound with
  | true => rfl
  | false =>
    unfold syncGuildFromSheet at hrun
    rw [h] at hrun
    cases hrun

theorem cycle_real_cases (cfg : Config) (m : SyncState) (g : Guild) (s : Sheet) (o : Outcome)
    (hrun : syncGuildFromSheet cfg m g false = .ok o) (hsheet : g.sheet = some s) :
    (o = skippedOutcome m ∧ ∃ prev, m.get g.id = some prev ∧
        sameAsPrev cfg (observeMembers cfg g).isSome prev
          (keysOf (observeMembers cfg g) (classify cfg s.headers s.rows g.id)) = true) ∨
      (o = executedOutcome cfg m g s ∧ ∀ prev, m.get g.id = some prev →
        sameAsPrev cfg (observeMembers cfg g).isSome prev
          (keysOf (observeMembers cfg g) (classify cfg s.headers s.rows g.id)) = false) := by
  have hrole := cycle_role_found cfg m g false o hrun
  by_cases hex : ∃ prev, m.get g.id = some prev ∧
      sameAsPrev cfg (observeMembers cfg g).isSome prev
        (keysOf (observeMembers cfg g) (classify cfg s.headers s.rows g.id)) = true
  · obtain ⟨prev, hget, hsame⟩ := hex
    rw [cycle_skipped cfg m g s prev hrole hsheet hget hsame] at hrun
    injection hrun with hrun
    exact Or.inl ⟨hrun.symm, prev, hget, hsame⟩
  · have hdiff : ∀ prev, m.get g.id = some prev →
        sameAsPrev cfg (observeMembers cfg g).isSome prev
          (keysOf (observeMembers cfg g) (classify cfg s.headers s.rows g.id)) = false := by
      intro prev hget
      cases hs : sameAsPrev cfg (observeMembers cfg g).isSome prev
          (keysOf (observeMembers cfg g) (classify cfg s.headers s.rows g.id)) with
      | false => rfl
      | true => exact absurd ⟨prev, hget, hs⟩ hex
    rw [cycle_executed cfg m g s hrole hsheet hdiff] at hrun
    injection hrun with hrun
    exact Or.inr ⟨hrun.symm, hdiff⟩

theorem find_setEntry_other (guildId other : Str) (k : Keys) (es : List (Str × Keys))
    (h : other ≠ guildId) :
    (setEntry guildId k es).find? (fun e => decide (e.1 = other)) =
      es.find? (fun e => decide (e.1 = other)) := by
  induction es with
  | nil => simp [setEntry, List.find?, Ne.symm h]
  | cons e t ih =>
    unfold setEntry
    by_cases he : e.1 = guildId
    · have hne : ¬ e.1 = other := fun h2 => h (h2.symm.trans he)
      simp [he, List.find?, Ne.symm h, hne]
    · by_cases ho : e.1 = other
      · rw [if_neg he, List.find?_cons, List.find?_cons]
        simp [ho]
      · rw [if_neg he, List.find?_cons, List.find?_cons]
        simp [ho, ih]

theorem SyncState.get_set_other (m : SyncState) (guildId other : Str) (k : Keys)
    (h : other ≠ guildId) : (m.set guildId k).get other = m.get other := by
  unfold SyncState.get SyncState.set
  simp [find_setEntry_other guildId other k m.entries h]

theorem sameAsPrev_keysOf_iff (cfg : Config) (members : Option (List Member)) (sets : Sets)
    (prev : Keys) :
    sameAsPrev cfg members.isSome prev (keysOf members sets) = true ↔
      prev.allowedKey = fingerprint sets.allowed ∧
        (prev.deniedKey = fingerprint sets.denied ∨
          (cfg.BAN_NON_SIGNED = false ∧ cfg.REMOVE_DENIED = false)) ∧
        (prev.holdersKey = fingerprint (holdersOf members) ∨ members.isSome = false) := by
  rw [sameAsPrev_iff]
  unfold keysOf
  cases members.isSome <;> simp

/-! ## The memo: skip decision, commit rule, dry run -/

/-- C11: a real cycle that reaches the skip check returns, and it is skipped if and
only if the memo holds an entry for the guild whose `allowedKey` equals the current
one, whose `deniedKey` equals the current one unless both `BAN_NON_SIGNED` and
`REMOVE_DENIED` are off, and whose `holdersKey` equals the current one unless the member
list was not fetched; without an entry the cycle is not skipped. -/
theorem skip_decision_iff (cfg : Config) (m : SyncState) (g : Guild) (s : Sheet)
    (hrole : g.roleFound = true) (hsheet : g.sheet = some s) :
    ∃ o, syncGuildFromSheet cfg m g false = .ok o ∧
      (o.result.skipped = true ↔
        ∃ prev, m.get g.id = some prev ∧
          prev.allowedKey = fingerprint (classify cfg s.headers s.rows g.id).allowed ∧
          (prev.deniedKey = fingerprint (classify cfg s.headers s.rows g.id).denied ∨
            (cfg.BAN_NON_SIGNED = false ∧ cfg.REMOVE_DENIED = false)) ∧
          (prev.holdersKey = fingerprint (holdersOf (observeMembers cfg g)) ∨
            (observeMembers cfg g).isSome = false)) ∧
      (m.get g.id = none → o.result.skipped = false) := by
  by_cases hex : ∃ prev, m.get g.id = some prev ∧
      sameAsPrev cfg (observeMembers cfg g).isSome prev
        (keysOf (observeMembers cfg g) (classify cfg s.headers s.rows g.id)) = true
  · obtain ⟨prev, hget, hsame⟩ := hex
    refine ⟨skippedOutcome m, cycle_skipped cfg m g s prev hrole hsheet hget hsame, ?_, ?_⟩
    · constructor
      · intro _
        exact ⟨prev, hget, (sameAsPrev_keysOf_iff cfg _ _ prev).1 hsame⟩
      · intro _
        rfl
    · intro hnone
      rw [hnone] at hget
      cases hget
  · have hdiff : ∀ prev, m.get g.id = some prev →
        sameAsPrev cfg (observeMembers cfg g).isSome prev
          (keysOf (observeMembers cfg g) (classify cfg s.headers s.rows g.id)) = false := by
      intro prev hget
      cases hs : sameAsPrev cfg (observeMembers cfg g).isSome prev
          (keysOf (observeMembers cfg g) (classify cfg s.headers s.rows g.id)) with
      | false => rfl
      | true => exact absurd ⟨prev, hget, hs⟩ hex
    refine ⟨executedOutcome cfg m g s, cycle_executed cfg m g s hrole hsheet hdiff, ?_, ?_⟩
    · constructor
      · intro h
        cases h
      · rintro ⟨prev, hget, hcond⟩
        exact absurd ⟨prev, hget, (sameAsPrev_keysOf_iff cfg _ _ prev).2 hcond⟩ hex
    · intro _
      rfl

/-- C11 on the settled guild with its own keys in the memo: the cycle is skipped. -/
theorem skip_decision_iff_witness :
    ∃ o, syncGuildFromSheet scenarioConfig settledMemo settledGuild false = .ok o ∧
      o.result.skipped = true := by
  obtain ⟨o, hrun, hiff, _⟩ :=
    skip_decision_iff scenarioConfig settledMemo settledGuild scenarioSheet rfl rfl
  exact ⟨o, hrun, hiff.2 ⟨⟨['1', '2', '3'], ['1', '2', '3'], ['4', '5', '6']⟩, by decide,
    by decide, Or.inl (by decide), Or.inl (by decide)⟩⟩

/-- C12: after a real cycle that is not skipped, the memo entry of the guild is the
new keys if and only if `hadErrors` is false; with `hadErrors` true the whole map is
as before the cycle, with `hadErrors` false it is the old map with the entry of the
guild set; the entries of all other guilds are unchanged in both cases. -/
theorem commit_rule (cfg : Config) (m : SyncState) (g : Guild) (s : Sheet) (o : Outcome)
    (hrun : syncGuildFromSheet cfg m g false = .ok o) (hsheet : g.sheet = some s)
    (hns : o.result.skipped = false) :
    (o.state.get g.id =
          some (keysOf (observeMembers cfg g) (classify cfg s.headers s.rows g.id)) ↔
        o.result.hadErrors = some false) ∧
      (o.result.hadErrors = some true → o.state = m) ∧
      (o.result.hadErrors = some false →
        o.state =
          m.set g.id (keysOf (observeMembers cfg g) (classify cfg s.headers s.rows g.id))) ∧
      (∀ other, other ≠ g.id → o.state.get other = m.get other) := by
  rcases cycle_real_cases cfg m g s o hrun hsheet with ⟨ho, _⟩ | ⟨ho, hdiff⟩
  · rw [ho] at hns
    cases hns
  · subst ho
    unfold executedOutcome
    cases herr : (finalExec cfg g s).hadErrors with
    | false =>
      refine ⟨?_, ?_, ?_, ?_⟩
      · simp [SyncState.get_set_self]
      · intro h
        simp at h
      · intro _
        simp
      · intro other hne
        simp [SyncState.get_set_other _ _ _ _ hne]
    | true =>
      refine ⟨?_, ?_, ?_, ?_⟩
      · simp only [Bool.true_eq_false, if_false, Option.some.injEq, iff_false]
        intro hget
        have hsame : sameAsPrev cfg (observeMembers cfg g).isSome
            (keysOf (observeMembers cfg g) (classify cfg s.headers s.rows g.id))
            (keysOf (observeMembers cfg g) (classify cfg s.headers s.rows g.id)) = true :=
          sameAsPrev_of_eq cfg (observeMembers cfg g).isSome rfl rfl rfl
        rw [hdiff _ hget] at hsame
        cases hsame
      · intro _
        simp
      · intro h
        simp at h
      · intro other _
        simp

/-- C12 on two cycles from an empty memo: the cycle whose grant rejects leaves the
memo empty, the error-free cycle on the settled guild stores its keys. -/
theorem commit_rule_witness :
    syncGuildFromSheet scenarioConfig ⟨[]⟩ rejectingGuild false =
        .ok { result := { added := 1, removed := 1, banned := 0, toAdd := [['1', '2', '3']],
                          toRemove := [['4', '5', '6']], toBan := [], dryRun := false,
                          skipped := false, hadErrors := some true }
              state := ⟨[]⟩
              ops := [Op.grant ['1', '2', '3'], Op.revoke ['4', '5', '6']] } ∧
      (⟨[]⟩ : SyncState).get rejectingGuild.id ≠
        some (keysOf (observeMembers scenarioConfig rejectingGuild)
          (classify scenarioConfig scenarioSheet.headers scenarioSheet.rows rejectingGuild.id)) :=
  ⟨rfl, fun hget =>
    absurd ((commit_rule scenarioConfig ⟨[]⟩ rejectingGuild scenarioSheet
      { result := { added := 1, removed := 1, banned := 0, toAdd := [['1', '2', '3']],
                    toRemove := [['4', '5', '6']], toBan := [], dryRun := false,
                    skipped := false, hadErrors := some true }
        state := ⟨[]⟩
        ops := [Op.grant ['1', '2', '3'], Op.revoke ['4', '5', '6']] }
      rfl rfl rfl).1.1 hget) (by decide)⟩

/-- C13: if a real cycle ends with `hadErrors` true, the next real cycle for the same
guild on the same roster, the same holders and the same fidelity mode returns, is not
skipped, and carries the result of a full evaluation: the candidate lists of the diff
and the counters, error flag and calls of the executor. -/
theorem retry_after_errors (cfg : Config) (m0 : SyncState) (g1 g2 : Guild) (s : Sheet)
    (o1 : Outcome)
    (hrun1 : syncGuildFromSheet cfg m0 g1 false = .ok o1)
    (herr : o1.result.hadErrors = some true)
    (hsheet1 : g1.sheet = some s) (hsheet2 : g2.sheet = some s)
    (hscope : g2.id = g1.id) (hrole2 : g2.roleFound = true)
    (hfid : (observeMembers cfg g2).isSome = (observeMembers cfg g1).isSome)
    (hholders : holdersOf (observeMembers cfg g2) = holdersOf (observeMembers cfg g1)) :
    syncGuildFromSheet cfg o1.state g2 false = .ok (executedOutcome cfg m0 g2 s) ∧
      (executedOutcome cfg m0 g2 s).result.skipped = false ∧
      (executedOutcome cfg m0 g2 s).result.toAdd =
        toAdd g2 (observeMembers cfg g2) (classify cfg s.headers s.rows g2.id).allowed ∧
      (executedOutcome cfg m0 g2 s).result.toRemove =
        toRemove cfg g2 (observeMembers cfg g2) (classify cfg s.headers s.rows g2.id).allowed
          (classify cfg s.headers s.rows g2.id).denied ∧
      (executedOutcome cfg m0 g2 s).result.toBan =
        toBan cfg g2 (observeMembers cfg g2) (classify cfg s.headers s.rows g2.id).denied ∧
      (executedOutcome cfg m0 g2 s).result.hadErrors = some (finalExec cfg g2 s).hadErrors ∧
      (executedOutcome cfg m0 g2 s).ops = (finalExec cfg g2 s).ops := by
  rcases cycle_real_cases cfg m0 g1 s o1 hrun1 hsheet1 with ⟨ho, _⟩ | ⟨ho, hdiff⟩
  · rw [ho] at herr
    cases herr
  · have hstate : o1.state = m0 := by
      rw [ho] at herr ⊢
      unfold executedOutcome at herr ⊢
      simp only [Option.some.injEq] at herr
      simp [herr]
    have hkeys : keysOf (observeMembers cfg g2) (classify cfg s.headers s.rows g2.id) =
        keysOf (observeMembers cfg g1) (classify cfg s.headers s.rows g1.id) := by
      unfold keysOf
      rw [hscope, hfid, hholders]
    refine ⟨?_, rfl, rfl, rfl, rfl, rfl, rfl⟩
    rw [hstate]
    apply cycle_executed cfg m0 g2 s hrole2 hsheet2
    intro prev hget
    rw [hscope] at hget
    rw [hkeys, hfid]
    exact hdiff prev hget

/-- C13 on the guild whose grant rejects: the cycle after the failing one runs the
executor again and issues the same two calls. -/
theorem retry_after_errors_witness :
    syncGuildFromSheet scenarioConfig ⟨[]⟩ rejectingGuild false =
        .ok { result := { added := 1, removed := 1, banned := 0, toAdd := [['1', '2', '3']],
                          toRemove := [['4', '5', '6']], toBan := [], dryRun := false,
                          skipped := false, hadErrors := some true }
              state := ⟨[]⟩
              ops := [Op.grant ['1', '2', '3'], Op.revoke ['4', '5', '6']] } ∧
      syncGuildFromSheet scenarioConfig ⟨[]⟩ rejectingGuild false =
        .ok (executedOutcome scenarioConfig ⟨[]⟩ rejectingGuild scenarioSheet) ∧
      (executedOutcome scenarioConfig ⟨[]⟩ rejectingGuild scenarioSheet).ops =
        [Op.grant ['1', '2', '3'], Op.revoke ['4', '5', '6']] :=
  ⟨rfl,
    (retry_after_errors scenarioConfig ⟨[]⟩ rejectingGuild rejectingGuild scenarioSheet
      { result := { added := 1, removed := 1, banned := 0, toAdd := [['1', '2', '3']],
                    toRemove := [['4', '5', '6']], toBan := [], dryRun := false,
                    skipped := false, hadErrors := some true }
        state := ⟨[]⟩
        ops := [Op.grant ['1', '2', '3'], Op.revoke ['4', '5', '6']] }
      rfl rfl rfl rfl rfl rfl rfl rfl).1,
    rfl⟩

/-- C14: a dry run that reaches the diff returns, issues no grant, revoke or ban call,
leaves the memo as it was, reports `added = removed = banned = 0`, and returns the
candidate lists that any real run on the same guild and roster returns when it is not
skipped. -/
theorem dry_run_changes_nothing (cfg : Config) (m : SyncState) (g : Guild) (s : Sheet)
    (hrole : g.roleFound = true) (hsheet : g.sheet = some s) :
    ∃ o, syncGuildFromSheet cfg m g true = .ok o ∧
      o.ops = [] ∧ o.state = m ∧
      o.result.added = 0 ∧ o.result.removed = 0 ∧ o.result.banned = 0 ∧
      ∀ (m2 : SyncState) (o2 : Outcome), syncGuildFromSheet cfg m2 g false = .ok o2 →
        o2.result.skipped = false →
        o.result.toAdd = o2.result.toAdd ∧ o.result.toRemove = o2.result.toRemove ∧
          o.result.toBan = o2.result.toBan := by
  refine ⟨dryOutcome cfg m g s, cycle_dry cfg m g s hrole hsheet, rfl, rfl, rfl, rfl, rfl, ?_⟩
  intro m2 o2 hrun2 hns
  rcases cycle_real_cases cfg m2 g s o2 hrun2 hsheet with ⟨ho, _⟩ | ⟨ho, _⟩
  · rw [ho] at hns
    cases hns
  · subst ho
    exact ⟨rfl, rfl, rfl⟩

/-- C14 on the scenario guild, from an empty memo: no call, no memo entry, and the
candidate lists `[123]` and `[456]`. -/
theorem dry_run_changes_nothing_witness :
    ∃ o, syncGuildFromSheet scenarioConfig ⟨[]⟩ scenarioGuild true = .ok o ∧
      o.ops = [] ∧ o.state = ⟨[]⟩ ∧ o.result.toAdd = [['1', '2', '3']] ∧
      o.result.toRemove = [['4', '5', '6']] := by
  obtain ⟨o, hrun, hops, hstate, _, _, _, hsame⟩ :=
    dry_run_changes_nothing scenarioConfig ⟨[]⟩ scenarioGuild scenarioSheet rfl rfl
  have h2 := hsame ⟨[]⟩
    { result := { added := 1, removed := 1, banned := 0, toAdd := [['1', '2', '3']],
                  toRemove := [['4', '5', '6']], toBan := [], dryRun := false,
                  skipped := false, hadErrors := some false }
      state := ⟨[(['9'], ⟨['1', '2', '3'], ['7', '8', '9'], ['4', '5', '6']⟩)]⟩
      ops := [Op.grant ['1', '2', '3'], Op.revoke ['4', '5', '6']] } rfl rfl
  exact ⟨o, hrun, hops, hstate, h2.1, h2.2.1⟩

/-- C15, as stated, fails: with the keys of the settled guild in the memo a real run
is skipped, while a dry run on the same inputs is not: it returns `skipped` false and
the candidate list `toRemove = [456]`. -/
theorem dry_run_not_skipped_example :
    syncGuildFromSheet scenarioConfig settledMemo settledGuild false =
        .ok (skippedOutcome settledMemo) ∧
      syncGuildFromSheet scenarioConfig settledMemo settledGuild true =
        .ok { result := { added := 0, removed := 0, banned := 0, toAdd := [],
                          toRemove := [['4', '5', '6']], toBan := [], dryRun := true,
                          skipped := false, hadErrors := none }
              state := settledMemo
              ops := [] } :=
  ⟨rfl, rfl⟩

/-- C15, amended: a dry run bypasses the skip check; whatever the memo holds, also an
entry equal to the current keys, a dry run that reaches the diff returns `skipped`
false, `dryRun` true, all counts zero and the candidate lists of the diff. -/
theorem dry_run_never_skipped (cfg : Config) (m : SyncState) (g : Guild) (s : Sheet)
    (hrole : g.roleFound = true) (hsheet : g.sheet = some s) :
    ∃ o, syncGuildFromSheet cfg m g true = .ok o ∧
      o.result.skipped = false ∧ o.result.dryRun = true ∧
      o.result.added = 0 ∧ o.result.removed = 0 ∧ o.result.banned = 0 ∧
      o.result.toAdd =
        toAdd g (observeMembers cfg g) (classify cfg s.headers s.rows g.id).allowed ∧
      o.result.toRemove =
        toRemove cfg g (observeMembers cfg g) (classify cfg s.headers s.rows g.id).allowed
          (classify cfg s.headers s.rows g.id).denied ∧
      o.result.toBan =
        toBan cfg g (observeMembers cfg g) (classify cfg s.headers s.rows g.id).denied :=
  ⟨dryOutcome cfg m g s, cycle_dry cfg m g s hrole hsheet, rfl, rfl, rfl, rfl, rfl, rfl, rfl,
    rfl⟩

/-- C15, amended, on the settled guild with its own keys in the memo. -/
theorem dry_run_never_skipped_witness :
    ∃ o, syncGuildFromSheet scenarioConfig settledMemo settledGuild true = .ok o ∧
      o.result.skipped = false := by
  obtain ⟨o, hrun, hskip, _⟩ :=
    dry_run_never_skipped scenarioConfig settledMemo settledGuild scenarioSheet rfl rfl
  exact ⟨o, hrun, hskip⟩

/-! ## Lemmas on the executor -/

theorem addOp_eq (g : Guild) (members : Option (List Member)) (st : Exec) (id : Str) :
    addOp g members st id =
      (if resolveMember g members .execAdd id = true then
          { st with
            added := st.added + 1
            hadErrors := st.hadErrors || !grantVerified g id
            ops := st.ops ++ [Op.grant id] }
        else st, false) := by
  unfold addOp grantVerified
  cases hres : resolveMember g members Phase.execAdd id with
  | false => simp
  | true =>
    cases hadd : g.rolesAdd id with
    | none => simp
    | some has =>
      cases has with
      | true => simp
      | false =>
        cases href : g.refetchAdd id with
        | none => simp
        | some has2 => cases has2 <;> simp

theorem removeOp_eq (g : Guild) (members : Option (List Member)) (st : Exec) (id : Str) :
    removeOp g members st id =
      (if resolveMember g members .execRemove id = true then
          { st with
            removed := st.removed + 1
            hadErrors := st.hadErrors || !revokeVerified g id
            ops := st.ops ++ [Op.revoke id] }
        else st, false) := by
  unfold removeOp revokeVerified
  cases hres : resolveMember g members Phase.execRemove id with
  | false => simp
  | true =>
    cases hrem : g.rolesRemove id with
    | none => simp
    | some has =>
      cases has with
      | false => simp
      | true =>
        cases href : g.refetchRemove id with
        | none => simp
        | some has2 => cases has2 <;> simp

theorem banOp_eq (g : Guild) (st : Exec) (id : Str) :
    banOp g st id =
      ({ st with
          banned := st.banned + (if g.ban id = true then 1 else 0)
          hadErrors := st.hadErrors || !g.ban id
          ops := st.ops ++ [Op.ban id] }, false) := by
  unfold banOp
  cases hban : g.ban id <;> simp

theorem runPool_addOp (g : Guild) (members : Option (List Member)) (ids : List Str)
    (st : Exec) :
    runPool ids (addOp g members) st =
      { st with
        added := st.added + (ids.filter (resolveMember g members .execAdd)).length
        hadErrors := st.hadErrors ||
          (ids.filter (resolveMember g members .execAdd)).any (fun id => !grantVerified g id)
        ops := st.ops ++ (ids.filter (resolveMember g members .execAdd)).map Op.grant } := by
  unfold runPool
  induction ids generalizing st with
  | nil => simp
  | cons a t ih =>
    rw [List.foldl_cons, addOp_eq]
    simp only []
    rw [ih]
    by_cases hres : resolveMember g members Phase.execAdd a = true
    · simp [hres, List.filter_cons, Nat.add_assoc, Nat.add_comm 1, Bool.or_assoc]
    · simp [hres, List.filter_cons]

theorem runPool_removeOp (g : Guild) (members : Option (List Member)) (ids : List Str)
    (st : Exec) :
    runPool ids (removeOp g members) st =
      { st with
        removed := st.removed + (ids.filter (resolveMember g members .execRemove)).length
        hadErrors := st.hadErrors ||
          (ids.filter (resolveMember g members .execRemove)).any
            (fun id => !revokeVerified g id)
        ops := st.ops ++ (ids.filter (resolveMember g members .execRemove)).map Op.revoke } := by
  unfold runPool
  induction ids generalizing st with
  | nil => simp
  | cons a t ih =>
    rw [List.foldl_cons, removeOp_eq]
    simp only []
    rw [ih]
    by_cases hres : resolveMember g members Phase.execRemove a = true
    · simp [hres, List.filter_cons, Nat.add_assoc, Nat.add_comm 1, Bool.or_assoc]
    · simp [hres, List.filter_cons]

theorem runPool_banOp (g : Guild) (ids : List Str) (st : Exec) :
    runPool ids (banOp g) st =
      { st with
        banned := st.banned + (ids.filter g.ban).length
        hadErrors := st.hadErrors || ids.any (fun id => !g.ban id)
        ops := st.ops ++ ids.map Op.ban } := by
  unfold runPool
  induction ids generalizing st with
  | nil => simp
  | cons a t ih =>
    rw [List.foldl_cons, banOp_eq]
    simp only []
    rw [ih]
    cases hban : g.ban a
    · simp [hban, List.filter_cons, Bool.or_assoc]
    · simp [hban, List.filter_cons, Nat.add_assoc, Nat.add_comm 1, Bool.or_assoc]

theorem execPhase_eq (g : Guild) (members : Option (List Member))
    (tAdd tRemove tBan : List Str) :
    execPhase g members tAdd tRemove tBan =
      { added := (tAdd.filter (resolveMember g members .execAdd)).length
        removed := (tRemove.filter (resolveMember g members .execRemove)).length
        banned := (tBan.filter g.ban).length
        hadErrors :=
          (tAdd.filter (resolveMember g members .execAdd)).any (fun id => !grantVerified g id) ||
          (tRemove.filter (resolveMember g members .execRemove)).any
            (fun id => !revokeVerified g id) ||
          tBan.any (fun id => !g.ban id)
        ops := (tAdd.filter (resolveMember g members .execAdd)).map Op.grant ++
          (tRemove.filter (resolveMember g members .execRemove)).map Op.revoke ++
          tBan.map Op.ban } := by
  unfold execPhase
  simp only [runPool_addOp, runPool_removeOp, runPool_banOp]
  cases tBan with
  | nil => simp
  | cons a t => simp [List.append_assoc]

theorem mem_ops_grant (g : Guild) (members : Option (List Member))
    (tAdd tRemove tBan : List Str) (id : Str)
    (h : Op.grant id ∈ (execPhase g members tAdd tRemove tBan).ops) :
    id ∈ tAdd.filter (resolveMember g members .execAdd) := by
  rw [execPhase_eq] at h
  simp only [List.mem_append, List.mem_map] at h
  rcases h with (⟨x, hx, he⟩ | ⟨x, _, he⟩) | ⟨x, _, he⟩
  · injection he with he
    exact he ▸ hx
  · cases he
  · cases he

theorem mem_ops_revoke (g : Guild) (members : Option (List Member))
    (tAdd tRemove tBan : List Str) (id : Str)
    (h : Op.revoke id ∈ (execPhase g members tAdd tRemove tBan).ops) :
    id ∈ tRemove.filter (resolveMember g members .execRemove) := by
  rw [execPhase_eq] at h
  simp only [List.mem_append, List.mem_map] at h
  rcases h with (⟨x, _, he⟩ | ⟨x, hx, he⟩) | ⟨x, _, he⟩
  · cases he
  · injection he with he
    exact he ▸ hx
  · cases he

theorem hadErrors_of_unverified_grant (g : Guild) (members : Option (List Member))
    (tAdd tRemove tBan : List Str) (id : Str)
    (hmem : id ∈ tAdd.filter (resolveMember g members .execAdd))
    (hver : grantVerified g id = false) :
    (execPhase g members tAdd tRemove tBan).hadErrors = true := by
  rw [execPhase_eq]
  simp only [Bool.or_eq_true, List.any_eq_true]
  exact Or.inl (Or.inl ⟨id, hmem, by simp [hver]⟩)

theorem hadErrors_of_unverified_revoke (g : Guild) (members : Option (List Member))
    (tAdd tRemove tBan : List Str) (id : Str)
    (hmem : id ∈ tRemove.filter (resolveMember g members .execRemove))
    (hver : revokeVerified g id = false) :
    (execPhase g members tAdd tRemove tBan).hadErrors = true := by
  rw [execPhase_eq]
  simp only [Bool.or_eq_true, List.any_eq_true]
  exact Or.inl (Or.inr ⟨id, hmem, by simp [hver]⟩)

theorem executed_of_ops_ne_nil (cfg : Config) (m : SyncState) (g : Guild) (s : Sheet)
    (o : Outcome) (hrun : syncGuildFromSheet cfg m g false = .ok o) (hsheet : g.sheet = some s)
    (op : Op) (hop : op ∈ o.ops) : o = executedOutcome cfg m g s := by
  rcases cycle_real_cases cfg m g s o hrun hsheet with ⟨ho, _⟩ | ⟨ho, _⟩
  · rw [ho] at hop
    cases hop
  · exact ho

theorem executed_state_of_errors (cfg : Config) (m : SyncState) (g : Guild) (s : Sheet)
    (h : (finalExec cfg g s).hadErrors = true) :
    (executedOutcome cfg m g s).result.hadErrors = some true ∧
      (executedOutcome cfg m g s).state = m := by
  unfold executedOutcome
  simp [h]

/-! ## Executor: verification and counters -/

/-- C17: in a real cycle, if a grant was issued for an identity, the call `roles.add`
resolved with a member that does not show the role, and the re-read shows no role or
rejects, then the cycle ends with `hadErrors` true and the memo as it was before; and
the same for a revoke whose response and re-read still show the role. -/
theorem unverified_mutation_blocks_commit (cfg : Config) (m : SyncState) (g : Guild)
    (s : Sheet) (o : Outcome)
    (hrun : syncGuildFromSheet cfg m g false = .ok o) (hsheet : g.sheet = some s) :
    (∀ id, Op.grant id ∈ o.ops → g.rolesAdd id = some false →
        (g.refetchAdd id = some false ∨ g.refetchAdd id = none) →
        o.result.hadErrors = some true ∧ o.state = m) ∧
      (∀ id, Op.revoke id ∈ o.ops → g.rolesRemove id = some true →
        (g.refetchRemove id = some true ∨ g.refetchRemove id = none) →
        o.result.hadErrors = some true ∧ o.state = m) := by
  constructor
  · intro id hop hcall hread
    have ho := executed_of_ops_ne_nil cfg m g s o hrun hsheet _ hop
    subst ho
    have hmem := mem_ops_grant _ _ _ _ _ id hop
    have hver : grantVerified g id = false := by
      unfold grantVerified
      rcases hread with h | h <;> simp [hcall, h]
    exact executed_state_of_errors cfg m g s
      (hadErrors_of_unverified_grant _ _ _ _ _ id hmem hver)
  · intro id hop hcall hread
    have ho := executed_of_ops_ne_nil cfg m g s o hrun hsheet _ hop
    subst ho
    have hmem := mem_ops_revoke _ _ _ _ _ id hop
    have hver : revokeVerified g id = false := by
      unfold revokeVerified
      rcases hread with h | h <;> simp [hcall, h]
    exact executed_state_of_errors cfg m g s
      (hadErrors_of_unverified_revoke _ _ _ _ _ id hmem hver)

/-- C17 on the guild whose grant resolves without showing the role and whose re-read
rejects: the cycle ends with `hadErrors` true and an empty memo. -/
theorem unverified_mutation_blocks_commit_witness :
    Op.grant ['1', '2', '3'] ∈ (executedOutcome scenarioConfig ⟨[]⟩ unverifiedGuild
        scenarioSheet).ops ∧
      unverifiedGuild.rolesAdd ['1', '2', '3'] = some false ∧
      unverifiedGuild.refetchAdd ['1', '2', '3'] = none ∧
      (executedOutcome scenarioConfig ⟨[]⟩ unverifiedGuild scenarioSheet).result.hadErrors =
        some true ∧
      (executedOutcome scenarioConfig ⟨[]⟩ unverifiedGuild scenarioSheet).state = ⟨[]⟩ :=
  ⟨by decide, rfl, rfl,
    (unverified_mutation_blocks_commit scenarioConfig ⟨[]⟩ unverifiedGuild scenarioSheet
      (executedOutcome scenarioConfig ⟨[]⟩ unverifiedGuild scenarioSheet) rfl rfl).1
      ['1', '2', '3'] (by decide) rfl (Or.inr rfl)⟩

/-- C18 fails on the code: in the guild whose call `roles.add` rejects for `123`, the
grant is neither successful nor verified, yet the cycle returns `added = 1`, next to
`hadErrors = true`. -/
theorem added_counts_rejected_grant :
    rejectingGuild.rolesAdd ['1', '2', '3'] = none ∧
      grantVerified rejectingGuild ['1', '2', '3'] = false ∧
      syncGuildFromSheet scenarioConfig ⟨[]⟩ rejectingGuild false =
        .ok { result := { added := 1, removed := 1, banned := 0, toAdd := [['1', '2', '3']],
                          toRemove := [['4', '5', '6']], toBan := [], dryRun := false,
                          skipped := false, hadErrors := some true }
              state := ⟨[]⟩
              ops := [Op.grant ['1', '2', '3'], Op.revoke ['4', '5', '6']] } :=
  ⟨rfl, rfl, rfl⟩

/-! ## Lemmas on the pool -/

theorem any_set_of_get {α : Type} (f : α → Bool) (l : List α) (w : Nat) (x y : α)
    (h : l.get? w = some y) : ((l.set w x).any f || f y) = (l.any f || f x) := by
  induction l generalizing w with
  | nil => cases h
  | cons a t ih =>
    cases w with
    | zero =>
      simp only [List.get?_cons_zero, Option.some.injEq] at h
      subst h
      simp only [List.set_cons_zero, List.any_cons]
      cases f x <;> cases f a <;> cases t.any f <;> rfl
    | succ n =>
      simp only [List.get?_cons_succ] at h
      have := ih n h
      simp only [List.set_cons_succ, List.any_cons]
      cases hfa : f a
      · simpa using this
      · simp

theorem sum_set_of_get {α : Type} (f : α → Nat) (l : List α) (w : Nat) (x y : α)
    (h : l.get? w = some y) : ((l.set w x).map f).sum + f y = (l.map f).sum + f x := by
  induction l generalizing w with
  | nil => cases h
  | cons a t ih =>
    cases w with
    | zero =>
      simp only [List.get?_cons_zero, Option.some.injEq] at h
      subst h
      simp only [List.set_cons_zero, List.map_cons, List.sum_cons]
      omega
    | succ n =>
      simp only [List.get?_cons_succ] at h
      have := ih n h
      simp only [List.set_cons_succ, List.map_cons, List.sum_cons]
      omega

theorem poolInv_init (ids : List Str) (rejects : Str → Bool) (h0 : Bool) :
    PoolInv ids rejects h0 (poolInit ids h0) := by
  refine ⟨?_, ?_, ?_, ?_⟩
  · simp [poolInit]
  · have hnone : (List.replicate (min 3 ids.length) Worker.ready).any (workerPending rejects)
        = false := by
      rw [List.any_eq_false]
      intro w hw
      rw [List.eq_of_mem_replicate hw]
      simp [workerPending]
    simp [poolInit, hnone]
  · intro w hw hfin
    simp only [poolInit] at hw
    rw [List.eq_of_mem_replicate hw] at hfin
    cases hfin
  · simp [poolInit]

theorem poolInv_step (ids : List Str) (rejects : Str → Bool) (h0 : Bool) (p : Pool) (w : Nat)
    (hinv : PoolInv ids rejects h0 p) : PoolInv ids rejects h0 (poolStep ids rejects p w) := by
  obtain ⟨hcalls, hflag, hfin, hlen⟩ := hinv
  unfold poolStep
  cases hw : p.workers.get? w with
  | none => exact ⟨hcalls, hflag, hfin, hlen⟩
  | some wk =>
    cases wk with
    | finished => exact ⟨hcalls, hflag, hfin, hlen⟩
    | ready =>
      cases hid : ids.get? p.idx with
      | none =>
        refine ⟨hcalls, ?_, ?_, ?_⟩
        · have h := any_set_of_get (workerPending rejects) p.workers w Worker.finished
            Worker.ready hw
          simp only [workerPending, Bool.or_false] at h
          simp only [h]
          exact hflag
        · intro x hx hxf
          simp only at hx
          rw [List.get?_eq_none] at hid
          exact hid
        · simpa using hlen
      | some id =>
        refine ⟨?_, ?_, ?_, ?_⟩
        · simp only
          rw [List.get?_eq_getElem?] at hid
          rw [List.take_succ, hid, hcalls]
          rfl
        · have h := any_set_of_get (workerPending rejects) p.workers w (Worker.awaiting id)
            Worker.ready hw
          simp only [workerPending, Bool.or_false] at h
          simp only [h, List.any_append, List.any_cons, List.any_nil, Bool.or_false]
          rw [← Bool.or_assoc, hflag, Bool.or_assoc]
        · intro x hx hxf
          simp only at hx ⊢
          rcases List.mem_or_eq_of_mem_set hx with hx | hx
          · exact Nat.le_succ_of_le (hfin x hx hxf)
          · rw [hx] at hxf
            cases hxf
        · simpa using hlen
    | awaiting id =>
      refine ⟨hcalls, ?_, ?_, ?_⟩
      · have h := any_set_of_get (workerPending rejects) p.workers w Worker.ready
          (Worker.awaiting id) hw
        simp only [workerPending, Bool.or_false] at h
        simp only
        rw [hflag, ← h]
        cases p.hadErrors <;> cases rejects id <;>
          cases (p.workers.set w Worker.ready).any (workerPending rejects) <;> rfl
      · intro x hx hxf
        simp only at hx ⊢
        rcases List.mem_or_eq_of_mem_set hx with hx | hx
        · exact hfin x hx hxf
        · rw [hx] at hxf
          cases hxf
      · simpa using hlen

theorem poolInv_run (ids : List Str) (rejects : Str → Bool) (h0 : Bool) (sched : List Nat)
    (p : Pool) (hinv : PoolInv ids rejects h0 p) :
    PoolInv ids rejects h0 (poolRun ids rejects sched p) := by
  unfold poolRun
  induction sched generalizing p with
  | nil => exact hinv
  | cons w t ih => exact ih _ (poolInv_step ids rejects h0 p w hinv)

theorem exists_unfinished (p : Pool) (h : allFinished p = false) :
    ∃ w wk, p.workers.get? w = some wk ∧ wk ≠ Worker.finished := by
  unfold allFinished at h
  rw [List.all_eq_false] at h
  obtain ⟨wk, hmem, hne⟩ := h
  obtain ⟨w, hw⟩ := List.mem_iff_get?.1 hmem
  exact ⟨w, wk, hw, by simpa using hne⟩

theorem poolMeasure_step_lt (ids : List Str) (rejects : Str → Bool) (p : Pool) (w : Nat)
    (wk : Worker) (hw : p.workers.get? w = some wk) (hne : wk ≠ Worker.finished) :
    poolMeasure ids (poolStep ids rejects p w) < poolMeasure ids p := by
  unfold poolStep poolMeasure
  rw [hw]
  cases wk with
  | finished => exact absurd rfl hne
  | ready =>
    cases hid : ids.get? p.idx with
    | none =>
      have h := sum_set_of_get workerWeight p.workers w Worker.finished Worker.ready hw
      simp only [workerWeight] at h
      simp only
      omega
    | some id =>
      have hlt : p.idx < ids.length := by
        rcases Nat.lt_or_ge p.idx ids.length with h | h
        · exact h
        · rw [List.get?_eq_none.2 h] at hid
          cases hid
      have h := sum_set_of_get workerWeight p.workers w (Worker.awaiting id) Worker.ready hw
      simp only [workerWeight] at h
      simp only
      omega
  | awaiting id =>
    have h := sum_set_of_get workerWeight p.workers w Worker.ready (Worker.awaiting id) hw
    simp only [workerWeight] at h
    simp only
    omega

theorem pool_completes (ids : List Str) (rejects : Str → Bool) (n : Nat) (p : Pool)
    (hn : poolMeasure ids p ≤ n) :
    ∃ ext, allFinished (poolRun ids rejects ext p) = true := by
  induction n generalizing p with
  | zero =>
    cases hfin : allFinished p with
    | true => exact ⟨[], hfin⟩
    | false =>
      obtain ⟨w, wk, hw, hne⟩ := exists_unfinished p hfin
      have hlt := poolMeasure_step_lt ids rejects p w wk hw hne
      omega
  | succ k ih =>
    cases hfin : allFinished p with
    | true => exact ⟨[], hfin⟩
    | false =>
      obtain ⟨w, wk, hw, hne⟩ := exists_unfinished p hfin
      have hlt := poolMeasure_step_lt ids rejects p w wk hw hne
      obtain ⟨ext, hext⟩ := ih (poolStep ids rejects p w) (by omega)
      exact ⟨w :: ext, hext⟩

theorem pool_final (ids : List Str) (rejects : Str → Bool) (h0 : Bool) (p : Pool)
    (hinv : PoolInv ids rejects h0 p) (hfin : allFinished p = true) :
    p.invoked = ids ∧ p.hadErrors = (h0 || ids.any rejects) := by
  obtain ⟨hcalls, hflag, hdone, hlen⟩ := hinv
  unfold allFinished at hfin
  rw [List.all_eq_true] at hfin
  have hall : ∀ w ∈ p.workers, w = Worker.finished := fun w hw => by simpa using hfin w hw
  have hpend : p.workers.any (workerPending rejects) = false := by
    rw [List.any_eq_false]
    intro w hw
    rw [hall w hw]
    simp [workerPending]
  have hids : p.invoked = ids := by
    rw [hcalls]
    cases hws : p.workers with
    | nil =>
      rw [hws] at hlen
      simp only [List.length_nil] at hlen
      have hzero : ids.length = 0 := by omega
      rw [List.length_eq_zero.1 hzero]
      simp
    | cons wk t =>
      have hmem : wk ∈ p.workers := by rw [hws]; exact List.mem_cons_self wk t
      exact List.take_of_length_le (hdone wk hmem (hall wk hmem))
  refine ⟨hids, ?_⟩
  rw [hpend, hids] at hflag
  simpa using hflag.symm

theorem runPool_hadErrors (ids : List Str) (rejects : Str → Bool)
    (fn : Exec → Str → Exec × Bool)
    (hrej : ∀ st id, (fn st id).2 = rejects id)
    (hkeep : ∀ st id, (fn st id).1.hadErrors = st.hadErrors) (st : Exec) :
    (runPool ids fn st).hadErrors = (st.hadErrors || ids.any rejects) := by
  unfold runPool
  induction ids generalizing st with
  | nil => simp
  | cons a t ih =>
    rw [List.foldl_cons, ih]
    have h2 := hrej st a
    have h1 := hkeep st a
    rcases hfn : fn st a with ⟨st1, b⟩
    rw [hfn] at h1 h2
    simp only at h1 h2
    subst h2
    cases hb : rejects a <;> simp [h1, hb]

/-! ## Executor: the pool -/

/-- C16: for every list of identities, every operation (given by the identities it
rejects on) and every interleaving of the workers: the pool can always be run to the
end, where all workers have returned; whenever all workers have returned, the
operation has been called on each identity of the list exactly once, in order, and
`hadErrors` is its initial value or true when a call rejected; the fold `runPool` ends
with the same flag for an operation that does not touch it itself. -/
theorem runPool_containment (ids : List Str) (rejects : Str → Bool) (h0 : Bool) :
    (∀ sched, ∃ ext,
        allFinished (poolRun ids rejects (sched ++ ext) (poolInit ids h0)) = true) ∧
      (∀ sched, allFinished (poolRun ids rejects sched (poolInit ids h0)) = true →
        (poolRun ids rejects sched (poolInit ids h0)).invoked = ids ∧
          (poolRun ids rejects sched (poolInit ids h0)).hadErrors = (h0 || ids.any rejects)) ∧
      (∀ (fn : Exec → Str → Exec × Bool) (st : Exec),
        (∀ st1 id, (fn st1 id).2 = rejects id) →
        (∀ st1 id, (fn st1 id).1.hadErrors = st1.hadErrors) →
        (runPool ids fn st).hadErrors = (st.hadErrors || ids.any rejects)) := by
  refine ⟨?_, ?_, ?_⟩
  · intro sched
    obtain ⟨ext, hext⟩ := pool_completes ids rejects _
      (poolRun ids rejects sched (poolInit ids h0)) (Nat.le_refl _)
    refine ⟨ext, ?_⟩
    unfold poolRun at hext ⊢
    rw [List.foldl_append]
    exact hext
  · intro sched hfin
    exact pool_final ids rejects h0 _
      (poolInv_run ids rejects h0 sched _ (poolInv_init ids rejects h0)) hfin
  · intro fn st hrej hkeep
    exact runPool_hadErrors ids rejects fn hrej hkeep st

/-- C16 on five identities with a rejection on the second, for one interleaving of the
three workers: all five calls are made, in order, and `hadErrors` is true. -/
theorem runPool_containment_witness :
    allFinished (poolRun [['1'], ['2'], ['3'], ['4'], ['5']] (fun id => decide (id = ['2']))
        [0, 1, 2, 2, 2, 1, 0, 0, 1, 1, 2, 0, 0, 1, 2, 2]
        (poolInit [['1'], ['2'], ['3'], ['4'], ['5']] false)) = true ∧
      (poolRun [['1'], ['2'], ['3'], ['4'], ['5']] (fun id => decide (id = ['2']))
        [0, 1, 2, 2, 2, 1, 0, 0, 1, 1, 2, 0, 0, 1, 2, 2]
        (poolInit [['1'], ['2'], ['3'], ['4'], ['5']] false)).invoked =
          [['1'], ['2'], ['3'], ['4'], ['5']] ∧
      (poolRun [['1'], ['2'], ['3'], ['4'], ['5']] (fun id => decide (id = ['2']))
        [0, 1, 2, 2, 2, 1, 0, 0, 1, 1, 2, 0, 0, 1, 2, 2]
        (poolInit [['1'], ['2'], ['3'], ['4'], ['5']] false)).hadErrors = true :=
  ⟨by decide,
    ((runPool_containment [['1'], ['2'], ['3'], ['4'], ['5']] (fun id => decide (id = ['2']))
      false).2.1 [0, 1, 2, 2, 2, 1, 0, 0, 1, 1, 2, 0, 0, 1, 2, 2] (by decide)).1,
    ((runPool_containment [['1'], ['2'], ['3'], ['4'], ['5']] (fun id => decide (id = ['2']))
      false).2.1 [0, 1, 2, 2, 2, 1, 0, 0, 1, 1, 2, 0, 0, 1, 2, 2] (by decide)).2.trans
      (by decide)⟩

/-! ## Column resolution against the specification -/

theorem findIndex_eq_findIdx (headers : List Str) (name : Str) :
    findIndex headers name =
      if headers.findIdx (fun h => decide (h = name)) < headers.length then
        some (headers.findIdx (fun h => decide (h = name)))
      else none := by
  induction headers with
  | nil => simp [findIndex]
  | cons h t ih =>
    unfold findIndex
    rw [List.findIdx_cons]
    by_cases hh : h = name
    · simp [hh]
    · rw [if_neg hh, ih]
      by_cases hlt : t.findIdx (fun h => decide (h = name)) < t.length
      · simp [hlt, hh]
      · simp [hlt, hh]

/-- C20, as stated, fails: with the positive index `1.5` (not an integer) and the name
`id` matching the first header, the specification falls back to the name and returns the
cell `x`, while `getCell` returns the empty string. -/
theorem getCell_nonInteger_index :
    getCell [['x']] [['i', 'd']] ['i', 'd'] (JsNum.nonInt true) = [] ∧
      getCellSpec [['x']] [['i', 'd']] ['i', 'd'] (JsNum.nonInt true) = ['x'] := by
  decide

/-- C20, amended: for every row, header and name, `getCell` equals the resolver of the
specification on every index that is `NaN`, an integer, or a negative non-integer; on a
positive index that is not an integer it returns the empty string, whatever the name
and the headers are. -/
theorem getCell_eq_spec (row headers : List Str) (name : Str) (index : JsNum) :
    (index ≠ JsNum.nonInt true →
        getCell row headers name index = getCellSpec row headers name index) ∧
      getCell row headers name (JsNum.nonInt true) = [] := by
  have hname : (if (!name.isEmpty) = true then
        match findIndex headers name with
        | some i => row.getD i []
        | none => []
      else []) = nameCellSpec row headers name := by
    unfold nameCellSpec
    rw [findIndex_eq_findIdx]
    cases name with
    | nil => simp
    | cons a t =>
      by_cases hlt : headers.findIdx (fun h => decide (h = a :: t)) < headers.length
      · simp [hlt]
      · simp [hlt]
  constructor
  · intro hne
    unfold getCell getCellSpec
    cases index with
    | nan => simpa [JsNum.isPositive] using hname
    | int z =>
      by_cases hz : 0 < z
      · have hidx : (z - 1).toNat = z.toNat - 1 := by omega
        simp [JsNum.isPositive, hz, rowAt, hidx]
      · simpa [JsNum.isPositive, hz] using hname
    | nonInt b =>
      cases b with
      | true => exact absurd rfl hne
      | false => simpa [JsNum.isPositive] using hname
  · simp [getCell, JsNum.isPositive, rowAt]

/-- C20, amended, on the header `id,signed` and the row `123,true`: index 2 wins over
the name `id`. -/
theorem getCell_eq_spec_witness :
    JsNum.int 2 ≠ JsNum.nonInt true ∧
      getCell [['1', '2', '3'], ['t', 'r', 'u', 'e']] scenarioHeaders ['i', 'd'] (JsNum.int 2) =
        getCellSpec [['1', '2', '3'], ['t', 'r', 'u', 'e']] scenarioHeaders ['i', 'd']
          (JsNum.int 2) ∧
      getCellSpec [['1', '2', '3'], ['t', 'r', 'u', 'e']] scenarioHeaders ['i', 'd']
        (JsNum.int 2) = ['t', 'r', 'u', 'e'] :=
  ⟨by decide,
    (getCell_eq_spec [['1', '2', '3'], ['t', 'r', 'u', 'e']] scenarioHeaders ['i', 'd']
      (JsNum.int 2)).1 (by decide),
    by decide⟩

/-! ## Lemmas on the parser -/

theorem head_not_of_dropWhile {p : Char → Bool} {s t : List Char} {a : Char}
    (h : s.dropWhile p = a :: t) : p a = false := by
  induction s with
  | nil => cases h
  | cons b r ih =>
    rw [List.dropWhile_cons] at h
    by_cases hb : p b = true
    · rw [if_pos hb] at h
      exact ih h
    · rw [if_neg hb] at h
      injection h with h1 _
      rw [← h1]
      simpa using hb

theorem trim_trim (s : Str) : trim (trim s) = trim s := by
  have hv : trim s = (s.dropWhile isJsSpace).rdropWhile isJsSpace := rfl
  have h1 : (trim s).dropWhile isJsSpace = trim s := by
    obtain ⟨t, ht⟩ : trim s <+: s.dropWhile isJsSpace := by
      rw [hv]
      exact List.rdropWhile_prefix isJsSpace _
    cases hts : trim s with
    | nil => rfl
    | cons a v =>
      rw [hts] at ht
      have ha : isJsSpace a = false := head_not_of_dropWhile ht.symm
      simp [List.dropWhile_cons, ha]
  have h2 : (trim s).rdropWhile isJsSpace = trim s := by
    rw [hv]
    exact List.rdropWhile_idempotent isJsSpace _
  show ((trim s).dropWhile isJsSpace).rdropWhile isJsSpace = trim s
  rw [h1, h2]

theorem parseLineFrom_cons (out : List Str) (cur : Str) (inQuotes skip : Bool) (ch : Char)
    (rest : Str) :
    parseLineFrom out cur inQuotes skip (ch :: rest) =
      if skip = true then parseLineFrom out cur inQuotes false rest
      else if ch = dquote then
        if inQuotes = true ∧ rest.head? = some dquote then
          parseLineFrom out (cur ++ [dquote]) inQuotes true rest
        else parseLineFrom out cur (!inQuotes) false rest
      else if ch = comma ∧ inQuotes = false then
        parseLineFrom (out ++ [trim cur]) [] inQuotes false rest
      else parseLineFrom out (cur ++ [ch]) inQuotes false rest := by
  rfl

theorem parseLineFrom_nil (out : List Str) (cur : Str) (inQuotes skip : Bool) :
    parseLineFrom out cur inQuotes skip [] = out ++ [trim cur] := by
  rfl

theorem parseLineFrom_quoted (c : Str) (out : List Str) (cur rest : Str)
    (hrest : rest.head? ≠ some dquote) :
    parseLineFrom out cur true false (escapeCell c ++ dquote :: rest) =
      parseLineFrom out (cur ++ c) false false rest := by
  induction c generalizing cur with
  | nil =>
    simp only [escapeCell, List.nil_append, List.append_nil]
    rw [parseLineFrom_cons]
    simp [hrest]
  | cons ch t ih =>
    by_cases hq : ch = dquote
    · subst hq
      have hesc : escapeCell (dquote :: t) = dquote :: dquote :: escapeCell t := by
        simp [escapeCell]
      rw [hesc]
      simp only [List.cons_append]
      rw [parseLineFrom_cons]
      simp only [Bool.false_eq_true, if_false, if_true, List.head?_cons, and_self]
      rw [parseLineFrom_cons]
      simp only [if_true]
      rw [ih]
      simp
    · have hesc : escapeCell (ch :: t) = ch :: escapeCell t := by
        simp [escapeCell, hq]
      rw [hesc]
      simp only [List.cons_append]
      rw [parseLineFrom_cons]
      simp only [Bool.false_eq_true, if_false, hq, Bool.true_eq_false, and_false]
      rw [ih]
      simp

theorem parseLineFrom_cell (c : Str) (out : List Str) (rest : Str)
    (hrest : rest.head? ≠ some dquote) :
    parseLineFrom out [] false false (serializeCell c ++ rest) =
      parseLineFrom out c false false rest := by
  have hshape : serializeCell c ++ rest = dquote :: (escapeCell c ++ dquote :: rest) := by
    simp [serializeCell]
  rw [hshape, parseLineFrom_cons]
  simp only [Bool.false_eq_true, if_false, if_true, false_and, Bool.not_false]
  rw [parseLineFrom_quoted c out [] rest hrest]
  simp

theorem parseLineFrom_row (c : Str) (cs : List Str) (out : List Str) :
    parseLineFrom out [] false false (serializeRow (c :: cs)) =
      out ++ (c :: cs).map trim := by
  induction cs generalizing c out with
  | nil =>
    have h := parseLineFrom_cell c out [] (by simp)
    simp only [List.append_nil] at h
    simp only [serializeRow, h]
    rw [parseLineFrom_nil]
    simp
  | cons d rest ih =>
    have hc : (comma :: serializeRow (d :: rest)).head? ≠ some dquote := by
      simp only [List.head?_cons, ne_eq, Option.some.injEq]
      decide
    simp only [serializeRow]
    rw [parseLineFrom_cell c out _ hc, parseLineFrom_cons]
    have hcq : comma ≠ dquote := by decide
    simp only [Bool.false_eq_true, if_false, hcq, and_self, if_true]
    rw [ih]
    simp

theorem mem_escapeCell {c : Str} {x : Char} (h : x ∈ escapeCell c) : x = dquote ∨ x ∈ c := by
  induction c with
  | nil => simp [escapeCell] at h
  | cons ch t ih =>
    unfold escapeCell at h
    by_cases hq : ch = dquote
    · rw [if_pos hq] at h
      simp only [List.mem_cons] at h
      rcases h with h | h | h
      · exact Or.inl h
      · exact Or.inl h
      · rcases ih h with h1 | h1
        · exact Or.inl h1
        · exact Or.inr (List.mem_cons_of_mem _ h1)
    · rw [if_neg hq] at h
      simp only [List.mem_cons] at h
      rcases h with h | h
      · exact Or.inr (h ▸ List.mem_cons_self _ _)
      · rcases ih h with h1 | h1
        · exact Or.inl h1
        · exact Or.inr (List.mem_cons_of_mem _ h1)

theorem mem_serializeCell {c : Str} {x : Char} (h : x ∈ serializeCell c) :
    x = dquote ∨ x ∈ c := by
  unfold serializeCell at h
  simp only [List.mem_cons, List.mem_append, List.mem_singleton, List.not_mem_nil,
    or_false] at h
  rcases h with h | h | h
  · exact Or.inl h
  · exact mem_escapeCell h
  · exact Or.inl h

theorem mem_serializeRow {cells : List Str} {x : Char} (h : x ∈ serializeRow cells) :
    x = dquote ∨ x = comma ∨ ∃ c ∈ cells, x ∈ c := by
  induction cells with
  | nil => simp [serializeRow] at h
  | cons c cs ih =>
    cases cs with
    | nil =>
      simp only [serializeRow] at h
      rcases mem_serializeCell h with h1 | h1
      · exact Or.inl h1
      · exact Or.inr (Or.inr ⟨c, List.mem_cons_self _ _, h1⟩)
    | cons d rest =>
      simp only [serializeRow, List.mem_append, List.mem_cons] at h
      rcases h with h | h | h
      · rcases mem_serializeCell h with h1 | h1
        · exact Or.inl h1
        · exact Or.inr (Or.inr ⟨c, List.mem_cons_self _ _, h1⟩)
      · exact Or.inr (Or.inl h)
      · rcases ih h with h1 | h1 | ⟨e, he, hx⟩
        · exact Or.inl h1
        · exact Or.inr (Or.inl h1)
        · exact Or.inr (Or.inr ⟨e, List.mem_cons_of_mem _ he, hx⟩)

theorem serializeRow_length_pos {cells : List Str} (hne : cells ≠ []) :
    (serializeRow cells).length > 0 := by
  cases cells with
  | nil => exact absurd rfl hne
  | cons c cs =>
    cases cs with
    | nil => simp [serializeRow, serializeCell]
    | cons d rest => simp [serializeRow, serializeCell]

theorem splitLinesFrom_no_lineFeed (l cur : Str) (h : lineFeed ∉ l) :
    splitLinesFrom cur l = [cur ++ l] := by
  induction l generalizing cur with
  | nil => simp [splitLinesFrom]
  | cons c rest ih =>
    have hc : c ≠ lineFeed := fun e => h (e ▸ List.mem_cons_self _ _)
    have hrest : lineFeed ∉ rest := fun e => h (List.mem_cons_of_mem _ e)
    have hhead : rest.head? ≠ some lineFeed := by
      intro e
      cases rest with
      | nil => cases e
      | cons d t =>
        simp only [List.head?_cons, Option.some.injEq] at e
        exact hrest (e ▸ List.mem_cons_self _ _)
    unfold splitLinesFrom
    rw [if_neg hc, if_neg (fun e => hhead e.2), ih _ hrest]
    simp

theorem splitLinesFrom_header (header l cur : Str) (hlf : lineFeed ∉ header)
    (hcr : carriageReturn ∉ header) :
    splitLinesFrom cur (header ++ lineFeed :: l) = (cur ++ header) :: splitLinesFrom [] l := by
  induction header generalizing cur with
  | nil =>
    simp only [List.nil_append, List.append_nil]
    rw [splitLinesFrom, if_pos rfl]
  | cons c rest ih =>
    have hc : c ≠ lineFeed := fun e => hlf (e ▸ List.mem_cons_self _ _)
    have hc2 : c ≠ carriageReturn := fun e => hcr (e ▸ List.mem_cons_self _ _)
    simp only [List.cons_append]
    rw [splitLinesFrom, if_neg hc, if_neg (fun e => hc2 e.1),
      ih _ (fun e => hlf (List.mem_cons_of_mem _ e)) (fun e => hcr (List.mem_cons_of_mem _ e))]
    simp

theorem lineFeed_not_mem_serializeRow {cells : List Str} (hlf : ∀ c ∈ cells, lineFeed ∉ c) :
    lineFeed ∉ serializeRow cells := by
  intro h
  rcases mem_serializeRow h with h1 | h1 | ⟨c, hc, hx⟩
  · exact absurd h1 (by decide)
  · exact absurd h1 (by decide)
  · exact hlf c hc hx

theorem parseLine_serializeRow {cells : List Str} (hne : cells ≠ []) :
    parseLine (serializeRow cells) = cells.map trim := by
  cases cells with
  | nil => exact absurd rfl hne
  | cons c cs =>
    unfold parseLine
    rw [parseLineFrom_row]
    simp

/-! ## Parser round trip -/

/-- C19, as stated, fails: the one-cell row whose cell is a space followed by `a`,
serialised and parsed as the header line, comes back as the cell `a`. -/
theorem roundtrip_loses_blanks :
    (parseCSVToArrays (serializeRow [[' ', 'a']])).1 = [['a']] ∧
      (parseCSVToArrays (serializeRow [[' ', 'a']])).1 ≠ [[' ', 'a']] := by
  decide

/-- C19, amended: for every non-empty row of cells without line feed, the serialised
row parsed by `parseCSVToArrays`, as the header line or as a data line after a header
line, gives back the cells in order, each trimmed of surrounding white space; it gives
back the cells themselves when no cell starts or ends with white space. -/
theorem parse_serialize_roundtrip (cells : List Str) (hne : cells ≠ [])
    (hlf : ∀ c ∈ cells, lineFeed ∉ c) :
    (parseCSVToArrays (serializeRow cells)).1 = cells.map trim ∧
      (∀ header : Str, header ≠ [] → lineFeed ∉ header → carriageReturn ∉ header →
        (parseCSVToArrays (header ++ lineFeed :: serializeRow cells)).2 = [cells.map trim]) ∧
      ((∀ c ∈ cells, trim c = c) →
        (parseCSVToArrays (serializeRow cells)).1 = cells ∧
          ∀ header : Str, header ≠ [] → lineFeed ∉ header → carriageReturn ∉ header →
            (parseCSVToArrays (header ++ lineFeed :: serializeRow cells)).2 = [cells]) := by
  have hpos := serializeRow_length_pos hne
  have hnolf := lineFeed_not_mem_serializeRow hlf
  have hmap : (cells.map trim).map trim = cells.map trim := by
    rw [List.map_map]
    apply List.map_congr_left
    intro c _
    exact trim_trim c
  have hhead : (parseCSVToArrays (serializeRow cells)).1 = cells.map trim := by
    unfold parseCSVToArrays
    rw [splitLinesFrom_no_lineFeed _ _ hnolf]
    simp only [List.nil_append, List.filter_cons, hpos, decide_True, if_true, List.filter_nil]
    rw [parseLine_serializeRow hne, hmap]
  have hrow : ∀ header : Str, header ≠ [] → lineFeed ∉ header → carriageReturn ∉ header →
      (parseCSVToArrays (header ++ lineFeed :: serializeRow cells)).2 = [cells.map trim] := by
    intro header hh h1 h2
    have hlen : header.length > 0 := List.length_pos.2 hh
    unfold parseCSVToArrays
    rw [splitLinesFrom_header _ _ _ h1 h2, splitLinesFrom_no_lineFeed _ _ hnolf]
    simp only [List.nil_append, List.filter_cons, hpos, hlen, decide_True, if_true,
      List.filter_nil, List.map_cons, List.map_nil]
    rw [parseLine_serializeRow hne, hmap]
  refine ⟨hhead, hrow, ?_⟩
  intro htrim
  have hid : cells.map trim = cells := by
    conv_rhs => rw [← List.map_id cells]
    apply List.map_congr_left
    intro c hc
    exact htrim c hc
  refine ⟨hhead.trans hid, ?_⟩
  intro header hh h1 h2
  rw [hrow header hh h1 h2, hid]

/-- C19, amended, on a row of two cells holding a comma and a double quote, parsed
after the header line `id`. -/
theorem parse_serialize_roundtrip_witness :
    ([['a', comma, 'b'], [dquote, 'c']] : List Str) ≠ [] ∧
      (∀ c ∈ ([['a', comma, 'b'], [dquote, 'c']] : List Str), lineFeed ∉ c) ∧
      (parseCSVToArrays
          (['i', 'd'] ++ lineFeed :: serializeRow [['a', comma, 'b'], [dquote, 'c']])).2 =
        [[['a', comma, 'b'], [dquote, 'c']]] :=
  ⟨by decide, by decide,
    ((parse_serialize_roundtrip [['a', comma, 'b'], [dquote, 'c']] (by decide)
      (by decide)).2.2 (by decide)).2 ['i', 'd'] (by decide) (by decide) (by decide)⟩

/-! ## Diff: every candidate is justified -/

/-- C23: every identity of `toAdd` is in `allowed`, every identity of `toBan` is in
`denied`, and every identity of `toRemove` is in `denied` or is an observed holder that
is not in `allowed`; so when `allowed` and `denied` have no common member, no identity
is in both `toAdd` and `toRemove`, nor in both `toAdd` and `toBan`. -/
theorem candidates_justified (cfg : Config) (g : Guild) (members : Option (List Member))
    (allowed denied : List Str) :
    (∀ x ∈ toAdd g members allowed, x ∈ allowed) ∧
      (∀ x ∈ toBan cfg g members denied, x ∈ denied) ∧
      (∀ x ∈ toRemove cfg g members allowed denied,
        x ∈ denied ∨ (x ∈ holdersOf members ∧ x ∉ allowed)) ∧
      ((∀ x, ¬(x ∈ allowed ∧ x ∈ denied)) →
        (∀ x, ¬(x ∈ toAdd g members allowed ∧ x ∈ toRemove cfg g members allowed denied)) ∧
          ∀ x, ¬(x ∈ toAdd g members allowed ∧ x ∈ toBan cfg g members denied)) := by
  have hadd : ∀ x ∈ toAdd g members allowed, x ∈ allowed :=
    fun x hx => ((mem_toAdd g members allowed x).1 hx).1
  have hban : ∀ x ∈ toBan cfg g members denied, x ∈ denied := by
    intro x hx
    rw [toBan_eq_filter] at hx
    by_cases hb : cfg.BAN_NON_SIGNED = true
    · rw [if_pos hb] at hx
      exact (List.mem_filter.1 hx).1
    · rw [if_neg hb] at hx
      cases hx
  have hrem : ∀ x ∈ toRemove cfg g members allowed denied,
      x ∈ denied ∨ (x ∈ holdersOf members ∧ x ∉ allowed) := by
    intro x hx
    rcases (mem_toRemove cfg g members allowed denied x).1 hx with h | h
    · exact Or.inr ((mem_toRemoveMissing cfg members allowed x).1 h).2.2
    · exact Or.inl h.2.1
  refine ⟨hadd, hban, hrem, ?_⟩
  intro hdisj
  constructor
  · rintro x ⟨h1, h2⟩
    rcases hrem x h2 with h | h
    · exact hdisj x ⟨hadd x h1, h⟩
    · exact h.2 (hadd x h1)
  · rintro x ⟨h1, h2⟩
    exact hdisj x ⟨hadd x h1, hban x h2⟩

/-- C23 on the scenario guild with all policies on: `allowed = [123]` and
`denied = [456]` are disjoint, and `123`, the candidate for the grant, is not a
candidate for removal. -/
theorem candidates_justified_witness :
    (∀ x, ¬(x ∈ ([['1', '2', '3']] : List Str) ∧ x ∈ ([['4', '5', '6']] : List Str))) ∧
      ['1', '2', '3'] ∈ toAdd scenarioGuild (observeMembers fullPolicyConfig scenarioGuild)
        [['1', '2', '3']] ∧
      ['1', '2', '3'] ∉ toRemove fullPolicyConfig scenarioGuild
        (observeMembers fullPolicyConfig scenarioGuild) [['1', '2', '3']] [['4', '5', '6']] := by
  have hdisj : ∀ x, ¬(x ∈ ([['1', '2', '3']] : List Str) ∧ x ∈ ([['4', '5', '6']] : List Str)) := by
    rintro x ⟨h1, h2⟩
    rw [List.mem_singleton] at h1 h2
    rw [h1] at h2
    exact absurd h2 (by decide)
  have hadd : ['1', '2', '3'] ∈ toAdd scenarioGuild
      (observeMembers fullPolicyConfig scenarioGuild) [['1', '2', '3']] := by decide
  exact ⟨hdisj, hadd, fun hrem =>
    ((candidates_justified fullPolicyConfig scenarioGuild
      (observeMembers fullPolicyConfig scenarioGuild) [['1', '2', '3']] [['4', '5', '6']]).2.2.2
      hdisj).1 ['1', '2', '3'] ⟨hadd, hrem⟩⟩

/-! ## Parser: permissive and total -/

theorem parseLineFrom_ne_nil (line : Str) (out : List Str) (cur : Str) (inQuotes skip : Bool) :
    parseLineFrom out cur inQuotes skip line ≠ [] := by
  induction line generalizing out cur inQuotes skip with
  | nil =>
    rw [parseLineFrom_nil]
    simp
  | cons ch rest ih =>
    rw [parseLineFrom_cons]
    split
    · exact ih _ _ _ _
    · split
      · split
        · exact ih _ _ _ _
        · exact ih _ _ _ _
      · split
        · exact ih _ _ _ _
        · exact ih _ _ _ _

theorem parseLineFrom_open_quote (rest : Str) (out : List Str) (cur : Str)
    (h : dquote ∉ rest) :
    parseLineFrom out cur true false rest = out ++ [trim (cur ++ rest)] := by
  induction rest generalizing cur with
  | nil =>
    rw [parseLineFrom_nil]
    simp
  | cons ch t ih =>
    have hch : ch ≠ dquote := fun e => h (e ▸ List.mem_cons_self _ _)
    rw [parseLineFrom_cons]
    simp only [Bool.false_eq_true, if_false, hch, Bool.true_eq_false, and_false]
    rw [ih _ (fun e => h (List.mem_cons_of_mem _ e))]
    simp

theorem parseLineFrom_opening (rest : Str) (out : List Str) (cur : Str) :
    parseLineFrom out cur false false (dquote :: rest) =
      parseLineFrom out cur true false rest := by
  rw [parseLineFrom_cons]
  simp

theorem parseLineFrom_unquoted (pre l : Str) (out : List Str) (cur : Str)
    (h : dquote ∉ pre) :
    parseLineFrom out cur false false (pre ++ l) =
      parseLineFrom (unquotedState out cur pre).1 (unquotedState out cur pre).2 false false l := by
  induction pre generalizing out cur with
  | nil => rfl
  | cons ch t ih =>
    have hch : ch ≠ dquote := fun e => h (e ▸ List.mem_cons_self _ _)
    have ht : dquote ∉ t := fun e => h (List.mem_cons_of_mem _ e)
    simp only [List.cons_append]
    rw [parseLineFrom_cons]
    unfold unquotedState
    by_cases hc : ch = comma
    · simp only [Bool.false_eq_true, if_false, hch, hc, and_self, if_true]
      exact ih _ _ ht
    · simp only [Bool.false_eq_true, if_false, hch, hc, false_and]
      exact ih _ _ ht

theorem unquotedState_suffix (pre : Str) (out : List Str) (cur : Str) :
    (unquotedState out cur pre).2 <:+ cur ++ pre := by
  induction pre generalizing out cur with
  | nil => simp [unquotedState]
  | cons ch t ih =>
    unfold unquotedState
    by_cases hc : ch = comma
    · rw [if_pos hc]
      have h1 := ih (out ++ [trim cur]) []
      simp only [List.nil_append] at h1
      exact h1.trans ⟨cur ++ [ch], by simp⟩
    · rw [if_neg hc]
      have h1 := ih out (cur ++ [ch])
      simpa using h1

theorem filter_nonempty_eq_nil (ls : List Str) :
    ls.filter (fun l => decide (l.length > 0)) = [] ↔ ∀ l ∈ ls, l = [] := by
  rw [List.filter_eq_nil_iff]
  constructor
  · intro h l hl
    have := h l hl
    simp only [gt_iff_lt, decide_eq_true_eq, not_lt, Nat.le_zero_eq] at this
    exact List.length_eq_zero.1 this
  · intro h l hl
    rw [h l hl]
    simp

theorem parseLineFrom_open_escaped (c : Str) (out : List Str) (cur : Str) :
    parseLineFrom out cur true false (escapeCell c) = out ++ [trim (cur ++ c)] := by
  induction c generalizing cur with
  | nil =>
    simp only [escapeCell, List.append_nil]
    rw [parseLineFrom_nil]
  | cons ch t ih =>
    by_cases hq : ch = dquote
    · subst hq
      have hesc : escapeCell (dquote :: t) = dquote :: dquote :: escapeCell t := by
        simp [escapeCell]
      rw [hesc, parseLineFrom_cons]
      simp only [Bool.false_eq_true, if_false, if_true, List.head?_cons, and_self]
      rw [parseLineFrom_cons]
      simp only [if_true]
      rw [ih]
      simp
    · have hesc : escapeCell (ch :: t) = ch :: escapeCell t := by
        simp [escapeCell, hq]
      rw [hesc, parseLineFrom_cons]
      simp only [Bool.false_eq_true, if_false, hq, Bool.true_eq_false, and_false]
      rw [ih]
      simp

theorem parseLineFrom_row_then (c : Str) (cs : List Str) (out : List Str) (l : Str) :
    parseLineFrom out [] false false (serializeRow (c :: cs) ++ comma :: l) =
      parseLineFrom (out ++ (c :: cs).map trim) [] false false l := by
  have hcq : comma ≠ dquote := by decide
  induction cs generalizing c out with
  | nil =>
    have hc : (comma :: l).head? ≠ some dquote := by
      simp only [List.head?_cons, ne_eq, Option.some.injEq]
      exact hcq
    simp only [serializeRow]
    rw [parseLineFrom_cell c out _ hc, parseLineFrom_cons]
    simp only [Bool.false_eq_true, if_false, hcq, and_self, if_true]
    simp
  | cons d rest ih =>
    have hc : (comma :: (serializeRow (d :: rest) ++ comma :: l)).head? ≠ some dquote := by
      simp only [List.head?_cons, ne_eq, Option.some.injEq]
      exact hcq
    have hshape : serializeRow (c :: d :: rest) ++ comma :: l =
        serializeCell c ++ comma :: (serializeRow (d :: rest) ++ comma :: l) := by
      simp [serializeRow]
    rw [hshape, parseLineFrom_cell c out _ hc, parseLineFrom_cons]
    simp only [Bool.false_eq_true, if_false, hcq, and_self, if_true]
    rw [ih]
    simp

theorem unquotedState_no_comma (pre : Str) (out : List Str) (cur : Str) (h : comma ∉ pre) :
    unquotedState out cur pre = (out, cur ++ pre) := by
  induction pre generalizing cur with
  | nil => simp [unquotedState]
  | cons ch t ih =>
    have hch : ch ≠ comma := fun e => h (e ▸ List.mem_cons_self _ _)
    unfold unquotedState
    rw [if_neg hch, ih _ (fun e => h (List.mem_cons_of_mem _ e))]
    simp

theorem trim_of_all_space (s : Str) (h : ∀ ch ∈ s, isJsSpace ch = true) : trim s = [] := by
  have hd : s.dropWhile isJsSpace = [] := by
    rw [List.dropWhile_eq_nil_iff]
    exact h
  unfold trim
  rw [hd]
  rfl

theorem parseLine_of_all_space (line : Str) (h : ∀ ch ∈ line, isJsSpace ch = true) :
    parseLine line = [[]] := by
  have hq : dquote ∉ line := fun e => absurd (h _ e) (by decide)
  have hc : comma ∉ line := fun e => absurd (h _ e) (by decide)
  have hrun := parseLineFrom_unquoted line [] [] [] hq
  simp only [List.append_nil] at hrun
  unfold parseLine
  rw [hrun, unquotedState_no_comma line [] [] hc, parseLineFrom_nil]
  simp [trim_of_all_space line h]

/-- C21, as stated, fails: the text made of one space has no non-blank line, its only
line being white space, yet `parseCSVToArrays` returns a header with one empty field
instead of the empty header. -/
theorem blank_line_kept :
    (∀ l ∈ splitLinesFrom [] [' '], trim l = []) ∧
      parseCSVToArrays [' '] = ([[]], []) ∧
      parseCSVToArrays [' '] ≠ ([], []) := by
  decide

/-- C21, amended: `parseCSVToArrays` returns a header and rows for every text; the
result is the empty header with no rows exactly when every line of the text has length
zero, as for the empty text, while a line of white space only is kept and read as one
empty field; a field whose opening quote is never closed, whatever doubled quotes
follow it, runs to the end of the line and keeps every comma after the quote: the
fields before it are unchanged, and the last field is the text read since the last
separator followed by everything after the quote, doubled quotes read as one,
trimmed. -/
theorem parser_permissive :
    (∀ text, ∃ headers rows, parseCSVToArrays text = (headers, rows)) ∧
      parseCSVToArrays [] = ([], []) ∧
      (∀ text, parseCSVToArrays text = ([], []) ↔ ∀ l ∈ splitLinesFrom [] text, l = []) ∧
      (∀ text : Str, text ≠ [] → lineFeed ∉ text → (∀ ch ∈ text, isJsSpace ch = true) →
        parseCSVToArrays text = ([[]], [])) ∧
      (∀ (out : List Str) (cur c : Str),
        parseLineFrom out cur false false (dquote :: escapeCell c) =
          out ++ [trim (cur ++ c)]) ∧
      (∀ pre c : Str, dquote ∉ pre →
        ∃ (fields : List Str) (raw : Str), raw <:+ pre ∧
          parseLine pre = fields ++ [trim raw] ∧
          parseLine (pre ++ dquote :: escapeCell c) = fields ++ [trim (raw ++ c)]) ∧
      (∀ (cells : List Str) (c : Str), cells ≠ [] →
        parseLine (serializeRow cells ++ comma :: dquote :: escapeCell c) =
          cells.map trim ++ [trim c]) := by
  refine ⟨fun text => ⟨_, _, rfl⟩, rfl, ?_, ?_, ?_, ?_, ?_⟩
  · intro text
    unfold parseCSVToArrays
    constructor
    · intro h
      cases hf : (splitLinesFrom [] text).filter (fun l => decide (l.length > 0)) with
      | nil => exact (filter_nonempty_eq_nil _).1 hf
      | cons first others =>
        rw [hf] at h
        simp only [Prod.mk.injEq, List.map_eq_nil_iff] at h
        exact absurd h.1 (parseLineFrom_ne_nil _ _ _ _ _)
    · intro h
      rw [(filter_nonempty_eq_nil _).2 h]
  · intro text hne hlf hsp
    have hlen : text.length > 0 := List.length_pos.2 hne
    unfold parseCSVToArrays
    rw [splitLinesFrom_no_lineFeed _ _ hlf]
    simp only [List.nil_append, List.filter_cons, hlen, decide_True, if_true, List.filter_nil,
      List.map_nil]
    rw [parseLine_of_all_space text hsp]
    rfl
  · intro out cur c
    rw [parseLineFrom_opening, parseLineFrom_open_escaped]
  · intro pre c hpre
    refine ⟨(unquotedState [] [] pre).1, (unquotedState [] [] pre).2, ?_, ?_, ?_⟩
    · simpa using unquotedState_suffix pre [] []
    · have h := parseLineFrom_unquoted pre [] [] [] hpre
      simp only [List.append_nil] at h
      unfold parseLine
      rw [h, parseLineFrom_nil]
    · unfold parseLine
      rw [parseLineFrom_unquoted pre _ [] [] hpre, parseLineFrom_opening,
        parseLineFrom_open_escaped]
  · intro cells c hne
    cases cells with
    | nil => exact absurd rfl hne
    | cons d ds =>
      unfold parseLine
      rw [parseLineFrom_row_then, parseLineFrom_opening, parseLineFrom_open_escaped]
      simp

/-- C21, amended, on the line `a`, comma, opening quote, `b`, two quotes, `c`, comma,
`d`: two fields, the second holding one quote and the comma. -/
theorem parser_permissive_witness :
    escapeCell ['b', dquote, 'c', comma, 'd'] = ['b', dquote, dquote, 'c', comma, 'd'] ∧
      parseLine (['a', comma] ++ dquote :: ['b', dquote, dquote, 'c', comma, 'd']) =
        [['a'], ['b', dquote, 'c', comma, 'd']] :=
  ⟨by decide,
    (parser_permissive.2.2.2.2.1 [['a']] [] ['b', dquote, 'c', comma, 'd'])⟩

/-! ## Lemmas on fingerprints -/

theorem strLe_total (a b : Str) : strLe a b = true ∨ strLe b a = true := by
  induction a generalizing b with
  | nil => exact Or.inl (by cases b <;> rfl)
  | cons x s ih =>
    cases b with
    | nil => exact Or.inr rfl
    | cons y t =>
      unfold strLe
      by_cases h1 : x.toNat < y.toNat
      · exact Or.inl (by simp [h1])
      · by_cases h2 : y.toNat < x.toNat
        · exact Or.inr (by simp [h2])
        · simp only [h1, h2, if_false]
          exact ih t

theorem strLe_trans (a b c : Str) (hab : strLe a b = true) (hbc : strLe b c = true) :
    strLe a c = true := by
  induction a generalizing b c with
  | nil => cases c <;> rfl
  | cons x s ih =>
    cases b with
    | nil => simp [strLe] at hab
    | cons y t =>
      cases c with
      | nil => simp [strLe] at hbc
      | cons z u =>
        unfold strLe at hab hbc ⊢
        by_cases h1 : x.toNat < y.toNat
        · by_cases h2 : y.toNat < z.toNat
          · have : x.toNat < z.toNat := by omega
            simp [this]
          · by_cases h3 : z.toNat < y.toNat
            · simp [h2, h3] at hbc
            · have : x.toNat < z.toNat := by omega
              simp [this]
        · by_cases h1b : y.toNat < x.toNat
          · simp [h1, h1b] at hab
          · simp only [h1, h1b, if_false] at hab
            by_cases h2 : y.toNat < z.toNat
            · have : x.toNat < z.toNat := by omega
              simp [this]
            · by_cases h3 : z.toNat < y.toNat
              · simp [h2, h3] at hbc
              · simp only [h2, h3, if_false] at hbc
                have e1 : ¬ x.toNat < z.toNat := by omega
                have e2 : ¬ z.toNat < x.toNat := by omega
                simp only [e1, e2, if_false]
                exact ih t u hab hbc

theorem char_eq_of_toNat_eq {x y : Char} (h : x.toNat = y.toNat) : x = y := by
  apply Char.ext
  apply UInt32.ext
  exact h

theorem strLe_antisymm (a b : Str) (hab : strLe a b = true) (hba : strLe b a = true) :
    a = b := by
  induction a generalizing b with
  | nil =>
    cases b with
    | nil => rfl
    | cons y t => simp [strLe] at hba
  | cons x s ih =>
    cases b with
    | nil => simp [strLe] at hab
    | cons y t =>
      unfold strLe at hab hba
      by_cases h1 : x.toNat < y.toNat
      · have h2 : ¬ y.toNat < x.toNat := by omega
        simp [h1, h2] at hba
      · by_cases h2 : y.toNat < x.toNat
        · simp [h1, h2] at hab
        · simp only [h1, h2, if_false] at hab hba
          have hxy : x = y := char_eq_of_toNat_eq (by omega)
          rw [hxy, ih t hab hba]

theorem sortStrs_eq_insertionSort (l : List Str) :
    sortStrs l = List.insertionSort (fun a b => strLe a b = true) l := by
  have hins : ∀ (x : Str) (ys : List Str),
      insertSorted x ys = List.orderedInsert (fun a b => strLe a b = true) x ys := by
    intro x ys
    induction ys with
    | nil => rfl
    | cons y t ih =>
      unfold insertSorted
      rw [List.orderedInsert, ih]
  induction l with
  | nil => rfl
  | cons x t ih =>
    unfold sortStrs
    rw [List.insertionSort, hins, ih]

theorem sortStrs_perm (l : List Str) : (sortStrs l).Perm l := by
  rw [sortStrs_eq_insertionSort]
  exact List.perm_insertionSort _ l

theorem sortStrs_eq_of_perm {a b : List Str} (h : a.Perm b) : sortStrs a = sortStrs b := by
  haveI : IsTotal Str (fun a b => strLe a b = true) := ⟨strLe_total⟩
  haveI : IsTrans Str (fun a b => strLe a b = true) := ⟨strLe_trans⟩
  haveI : IsAntisymm Str (fun a b => strLe a b = true) := ⟨strLe_antisymm⟩
  rw [sortStrs_eq_insertionSort, sortStrs_eq_insertionSort]
  exact List.eq_of_perm_of_sorted
    (((List.perm_insertionSort _ a).trans h).trans (List.perm_insertionSort _ b).symm)
    (List.sorted_insertionSort _ a) (List.sorted_insertionSort _ b)

theorem comma_not_mem_of_testDigits {x : Str} (h : testDigits x = true) : comma ∉ x := by
  intro hmem
  unfold testDigits at h
  simp only [Bool.and_eq_true, List.all_eq_true] at h
  have hd := h.2 comma hmem
  exact absurd hd (by decide)

theorem ne_nil_of_testDigits {x : Str} (h : testDigits x = true) : x ≠ [] := by
  intro e
  rw [e] at h
  cases h

theorem joinComma_cons_cons (x y : Str) (rest : List Str) :
    joinComma (x :: y :: rest) = x ++ comma :: joinComma (y :: rest) := by
  rfl

theorem append_comma_inj (x y a b : Str) (hx : comma ∉ x) (hy : comma ∉ y)
    (h : x ++ comma :: a = y ++ comma :: b) : x = y ∧ a = b := by
  induction x generalizing y with
  | nil =>
    cases y with
    | nil =>
      simp only [List.nil_append, List.cons.injEq, true_and] at h
      exact ⟨rfl, h⟩
    | cons d y2 =>
      simp only [List.nil_append, List.cons_append, List.cons.injEq] at h
      exact absurd (h.1 ▸ List.mem_cons_self _ _) hy
  | cons c x2 ih =>
    cases y with
    | nil =>
      simp only [List.nil_append, List.cons_append, List.cons.injEq] at h
      exact absurd (h.1 ▸ List.mem_cons_self _ _) hx
    | cons d y2 =>
      simp only [List.cons_append, List.cons.injEq] at h
      obtain ⟨h1, h2⟩ := ih y2 (fun e => hx (List.mem_cons_of_mem _ e))
        (fun e => hy (List.mem_cons_of_mem _ e)) h.2
      exact ⟨by rw [h.1, h1], h2⟩

theorem joinComma_inj (l1 l2 : List Str)
    (h1 : ∀ x ∈ l1, x ≠ [] ∧ comma ∉ x) (h2 : ∀ x ∈ l2, x ≠ [] ∧ comma ∉ x)
    (h : joinComma l1 = joinComma l2) : l1 = l2 := by
  induction l1 generalizing l2 with
  | nil =>
    cases l2 with
    | nil => rfl
    | cons y t2 =>
      have hy := (h2 y (List.mem_cons_self _ _)).1
      cases t2 with
      | nil => exact absurd h.symm hy
      | cons z u2 =>
        rw [joinComma_cons_cons] at h
        cases y with
        | nil => exact absurd rfl hy
        | cons c y2 => cases h
  | cons x t1 ih =>
    have hx := h1 x (List.mem_cons_self _ _)
    cases l2 with
    | nil =>
      cases t1 with
      | nil => exact absurd h hx.1
      | cons z u1 =>
        rw [joinComma_cons_cons] at h
        cases x with
        | nil => exact absurd rfl hx.1
        | cons c x2 => cases h
    | cons y t2 =>
      have hy := h2 y (List.mem_cons_self _ _)
      cases t1 with
      | nil =>
        cases t2 with
        | nil =>
          have e : x = y := h
          rw [e]
        | cons z u2 =>
          rw [joinComma_cons_cons] at h
          have e : x = y ++ comma :: joinComma (z :: u2) := h
          exact absurd (e ▸ List.mem_append_right y (List.mem_cons_self _ _)) hx.2
      | cons w u1 =>
        cases t2 with
        | nil =>
          rw [joinComma_cons_cons] at h
          have e : x ++ comma :: joinComma (w :: u1) = y := h
          exact absurd (e ▸ List.mem_append_right x (List.mem_cons_self _ _)) hy.2
        | cons z u2 =>
          rw [joinComma_cons_cons, joinComma_cons_cons] at h
          obtain ⟨e1, e2⟩ := append_comma_inj x y _ _ hx.2 hy.2 h
          have := ih (z :: u2) (fun v hv => h1 v (List.mem_cons_of_mem _ hv))
            (fun v hv => h2 v (List.mem_cons_of_mem _ hv)) e2
          rw [e1, this]

theorem fingerprint_eq_iff_perm (a b : List Str) (ha : ∀ x ∈ a, testDigits x = true)
    (hb : ∀ x ∈ b, testDigits x = true) : fingerprint a = fingerprint b ↔ a.Perm b := by
  constructor
  · intro h
    have hsa : ∀ x ∈ sortStrs a, x ≠ [] ∧ comma ∉ x := fun x hx =>
      ⟨ne_nil_of_testDigits (ha x ((sortStrs_perm a).mem_iff.1 hx)),
        comma_not_mem_of_testDigits (ha x ((sortStrs_perm a).mem_iff.1 hx))⟩
    have hsb : ∀ x ∈ sortStrs b, x ≠ [] ∧ comma ∉ x := fun x hx =>
      ⟨ne_nil_of_testDigits (hb x ((sortStrs_perm b).mem_iff.1 hx)),
        comma_not_mem_of_testDigits (hb x ((sortStrs_perm b).mem_iff.1 hx))⟩
    have hs : sortStrs a = sortStrs b := joinComma_inj _ _ hsa hsb h
    exact ((sortStrs_perm a).symm.trans (hs ▸ List.Perm.refl _)).trans (sortStrs_perm b)
  · intro h
    unfold fingerprint
    rw [sortStrs_eq_of_perm h]

theorem setAdd_nodup {s : List Str} (x : Str) (h : s.Nodup) : (setAdd s x).Nodup := by
  unfold setAdd
  by_cases hx : x ∈ s
  · rw [if_pos hx]
    exact h
  · rw [if_neg hx]
    exact List.Nodup.append h (List.nodup_singleton x)
      (by
        intro y hy hy2
        rw [List.mem_singleton] at hy2
        exact hx (hy2 ▸ hy))

theorem classify_nodup (cfg : Config) (headers : List Str) (rows : List (List Str))
    (guildId : Str) :
    (classify cfg headers rows guildId).allowed.Nodup ∧
      (classify cfg headers rows guildId).denied.Nodup := by
  unfold classify
  have key : ∀ (rs : List (List Str)) (acc : Sets), acc.allowed.Nodup → acc.denied.Nodup →
      (rs.foldl (classifyRow cfg headers guildId) acc).allowed.Nodup ∧
        (rs.foldl (classifyRow cfg headers guildId) acc).denied.Nodup := by
    intro rs
    induction rs with
    | nil => exact fun acc h1 h2 => ⟨h1, h2⟩
    | cons r t ih =>
      intro acc h1 h2
      rw [List.foldl_cons]
      apply ih
      · rw [classifyRow_eq]
        split
        · split
          · exact setAdd_nodup _ h1
          · split
            · exact h1
            · exact h1
        · exact h1
      · rw [classifyRow_eq]
        split
        · split
          · exact h2
          · split
            · exact setAdd_nodup _ h2
            · exact h2
        · exact h2
  exact key rows ⟨[], []⟩ List.nodup_nil List.nodup_nil

/-! ## Fingerprints are canonical -/

/-- C22: for two sets of identities (duplicate-free lists of non-empty digit strings),
the fingerprints are equal if and only if the sets have the same members; the
fingerprint is the same for every insertion order of a set, and so the fingerprints of
`allowed` and `denied` do not change when the roster rows are reordered. -/
theorem fingerprint_canonical (a b : List Str)
    (ha : ∀ x ∈ a, testDigits x = true) (hb : ∀ x ∈ b, testDigits x = true)
    (hna : a.Nodup) (hnb : b.Nodup) :
    (fingerprint a = fingerprint b ↔ ∀ x, x ∈ a ↔ x ∈ b) ∧
      (a.Perm b → fingerprint a = fingerprint b) ∧
      (∀ (cfg : Config) (headers : List Str) (rows rows2 : List (List Str)) (guildId : Str),
        rows.Perm rows2 →
        fingerprint (classify cfg headers rows guildId).allowed =
            fingerprint (classify cfg headers rows2 guildId).allowed ∧
          fingerprint (classify cfg headers rows guildId).denied =
            fingerprint (classify cfg headers rows2 guildId).denied) := by
  refine ⟨?_, (fingerprint_eq_iff_perm a b ha hb).2, ?_⟩
  · rw [fingerprint_eq_iff_perm a b ha hb]
    exact List.perm_ext_iff_of_nodup hna hnb
  · intro cfg headers rows rows2 guildId hperm
    constructor
    · apply (fingerprint_eq_iff_perm _ _ (fun x hx => testDigits_of_mem_allowed hx)
        (fun x hx => testDigits_of_mem_allowed hx)).2
      apply (List.perm_ext_iff_of_nodup (classify_nodup cfg headers rows guildId).1
        (classify_nodup cfg headers rows2 guildId).1).2
      intro x
      rw [mem_classify_allowed, mem_classify_allowed]
      constructor
      · rintro ⟨r, hr, h⟩
        exact ⟨r, hperm.mem_iff.1 hr, h⟩
      · rintro ⟨r, hr, h⟩
        exact ⟨r, hperm.mem_iff.2 hr, h⟩
    · apply (fingerprint_eq_iff_perm _ _ (fun x hx => testDigits_of_mem_denied hx)
        (fun x hx => testDigits_of_mem_denied hx)).2
      apply (List.perm_ext_iff_of_nodup (classify_nodup cfg headers rows guildId).2
        (classify_nodup cfg headers rows2 guildId).2).2
      intro x
      rw [mem_classify_denied, mem_classify_denied]
      constructor
      · rintro ⟨r, hr, h⟩
        exact ⟨r, hperm.mem_iff.1 hr, h⟩
      · rintro ⟨r, hr, h⟩
        exact ⟨r, hperm.mem_iff.2 hr, h⟩

/-- C22 on the set of `10` and `9` inserted in both orders: the fingerprint is `10,9`
either way. -/
theorem fingerprint_canonical_witness :
    fingerprint [['1', '0'], ['9']] = ['1', '0', comma, '9'] ∧
      fingerprint [['1', '0'], ['9']] = fingerprint [['9'], ['1', '0']] :=
  ⟨by decide,
    (fingerprint_canonical [['1', '0'], ['9']] [['9'], ['1', '0']] (by decide) (by decide)
      (by decide) (by decide)).2.1 (List.Perm.swap _ _ _)⟩

end AuthBot
